import Mathlib

/-!
Verification of the service-metrics aggregation engine
(`serviceMetricsService.ts`: `aggregateServiceMetrics`, `rankServices`,
`processErrorsByStatusCode`, `processErrorsBySeverity`, `buildDateFilter`,
`buildServiceFilter`, `getTimeRangeInMs`, `calculateResourceUtilization`,
and `DateUtils.getTimeRangeInMinutes`).

Numbers are modelled as exact rationals (JS floating point is embedded as
exact decimal arithmetic); timestamps as integers (milliseconds since
epoch, the value of `Date.getTime()`); `Math.round` as
round-half-toward-positive-infinity, which is the JS semantics.
-/

/-- Severity labels of a metric event (`'low' | 'medium' | 'high' | 'critical'`).
Each corresponds to a non-empty string in the source, so the JS truthiness
test `error.severity` is always true for values of this type. -/
inductive Severity where
  | low
  | medium
  | high
  | critical
deriving DecidableEq

/-- Named time-range options of `AggregationQuery.timeRange`. -/
inductive TimeRange where
  | fiveMinutes
  | tenMinutes
  | oneHour
  | twentyFourHours
  | sevenDays
  | custom
deriving DecidableEq

/-- Ranking criteria of `AggregationQuery.rankBy`. -/
inductive RankBy where
  | rate
  | error
  | duration
  | saturation
deriving DecidableEq

/-- A `ServiceMetric` input event (fields relevant to aggregation). -/
structure ServiceMetric where
  servicename : String
  severity : Severity
  timestamp : Int
  responseTime : ℚ
  statusCode : Int
  requestCount : ℚ
  cpuUsage : Option ℚ
  memoryUsage : Option ℚ
deriving DecidableEq

/-- An `AggregationQuery`.  `startDate`/`endDate` model the parsed
`new Date(string).getTime()` values of the supplied date strings;
`none` models an absent (or empty, hence falsy) field. -/
structure AggregationQuery where
  timeRange : Option TimeRange := none
  startDate : Option Int := none
  endDate : Option Int := none
  servicenames : Option (List String) := none
  severities : Option (List Severity) := none
  rankBy : Option RankBy := none
  limit : Option Int := none
deriving DecidableEq

/-- `DateUtils.getTimeRangeInMinutes`: minutes for each named range; the
lookup table has no entry for `custom`, and the source appends `|| 0`. -/
def getTimeRangeInMinutes : TimeRange → Int
  | TimeRange.fiveMinutes => 5
  | TimeRange.tenMinutes => 10
  | TimeRange.oneHour => 60
  | TimeRange.twentyFourHours => 1440
  | TimeRange.sevenDays => 10080
  | TimeRange.custom => 0

/-- `Math.round` in JS: round half toward positive infinity. -/
def jsRound (x : ℚ) : Int := ⌊x + 1/2⌋

/-- `Math.round(x * 100) / 100`: round to 2 decimal places. -/
def round2 (x : ℚ) : ℚ := (jsRound (x * 100) : ℚ) / 100

/-- `timeRangeSeconds || 1` and `timeRangeMinutes || 1`: the JS `||`
replaces the value by `1` exactly when it is falsy, i.e. when it is `0`. -/
def jsOrOne (x : ℚ) : ℚ := if x = 0 then 1 else x

/-- `getTimeRangeInMs`: named range to fixed milliseconds; custom range to
`endDate - startDate`; otherwise the 24h default. -/
def getTimeRangeInMs (q : AggregationQuery) : Int :=
  match q.timeRange with
  | some tr =>
    if tr ≠ TimeRange.custom then getTimeRangeInMinutes tr * 60 * 1000
    else
      match q.startDate, q.endDate with
      | some s, some e => e - s
      | _, _ => 24 * 60 * 60 * 1000
  | none =>
    match q.startDate, q.endDate with
    | some s, some e => e - s
    | _, _ => 24 * 60 * 60 * 1000

/-- `timeRangeSeconds` as computed in `aggregateServiceMetrics`. -/
def secsOf (q : AggregationQuery) : ℚ := (getTimeRangeInMs q : ℚ) / 1000

/-- `timeRangeMinutes` as computed in `aggregateServiceMetrics`. -/
def minsOf (q : AggregationQuery) : ℚ := secsOf q / 60

/-- `buildDateFilter`: inclusive `[$gte, $lte]` bounds on `timestamp`, or no
time filter.  A named range ends at the evaluation instant `now` and starts
`minutes * 60 * 1000` ms earlier (`DateUtils.getDateRangeFromTimeOption`);
`custom` (or an absent `timeRange`) uses both explicit dates when present. -/
def buildDateFilter (now : Int) (q : AggregationQuery) : Option (Int × Int) :=
  match q.timeRange with
  | some tr =>
    if tr ≠ TimeRange.custom then
      some (now - getTimeRangeInMinutes tr * 60 * 1000, now)
    else
      match q.startDate, q.endDate with
      | some s, some e => some (s, e)
      | _, _ => none
  | none =>
    match q.startDate, q.endDate with
    | some s, some e => some (s, e)
    | _, _ => none

/-- The match predicate of the `$match` stage: date filter (when present)
together with `buildServiceFilter` ($in allow-lists for `servicename` and
`severity`; an absent or empty list imposes no constraint). -/
def matchesFilter (now : Int) (q : AggregationQuery) (m : ServiceMetric) : Bool :=
  (match buildDateFilter now q with
   | none => true
   | some (s, e) => decide (s ≤ m.timestamp) && decide (m.timestamp ≤ e)) &&
  (match q.servicenames with
   | none => true
   | some l => if l.isEmpty then true else m.servicename ∈ l) &&
  (match q.severities with
   | none => true
   | some l => if l.isEmpty then true else m.severity ∈ l)

/-- `{ $gte: ['$statusCode', 400] }`: the error classification. -/
def isError (m : ServiceMetric) : Bool := 400 ≤ m.statusCode

/-- `calculateResourceUtilization`. -/
def calculateResourceUtilization (cpuUsage memoryUsage : ℚ) : Severity :=
  let maxUsage := max cpuUsage memoryUsage
  if 90 ≤ maxUsage then Severity.critical
  else if 70 ≤ maxUsage then Severity.high
  else if 50 ≤ maxUsage then Severity.medium
  else Severity.low

/-- `$min` over a non-empty pushed array (0 for the impossible empty case). -/
def qMin : List ℚ → ℚ
  | [] => 0
  | x :: xs => xs.foldl min x

/-- `$max` over a non-empty pushed array (0 for the impossible empty case). -/
def qMax : List ℚ → ℚ
  | [] => 0
  | x :: xs => xs.foldl max x

/-- `$avg`: arithmetic mean of the pushed array. -/
def listAvg (l : List ℚ) : ℚ := l.sum / l.length

/-- Ascending numeric sort, as both `$sortArray { sortBy: 1 }` and
`.sort((a, b) => a - b)` produce. -/
def sortAsc (l : List ℚ) : List ℚ := l.insertionSort (fun a b => a ≤ b)

/-- `Math.floor(responseTimes.length * 0.95)`. -/
def p95Index (n : Nat) : Nat := (⌊(n : ℚ) * (95/100)⌋).toNat

/-- `Math.floor(responseTimes.length * 0.99)`. -/
def p99Index (n : Nat) : Nat := (⌊(n : ℚ) * (99/100)⌋).toNat

/-- One entry of a breakdown array (`statusCode`/`severity` generalized to
`key`; `count`; `percentage`). -/
structure BreakdownEntry (κ : Type) where
  key : κ
  count : ℚ
  percentage : ℚ
deriving DecidableEq

/-- `Map.set(k, (Map.get(k) || 0) + c)`: merge `c` into the entry for `k`,
keeping the original insertion position, or append a new entry at the end
(JS `Map` preserves insertion order). -/
def mapInsertAdd {κ : Type} [DecidableEq κ] (k : κ) (c : ℚ) :
    List (κ × ℚ) → List (κ × ℚ)
  | [] => [(k, c)]
  | p :: rest => if p.1 = k then (p.1, p.2 + c) :: rest else p :: mapInsertAdd k c rest

/-- The `errors.forEach` accumulation loop of `processErrorsByStatusCode` /
`processErrorsBySeverity`: tallies sharing a key are merged by summing
counts; entries failing the truthiness `guard` are skipped. -/
def mergeTallies {κ : Type} [DecidableEq κ] (guard : κ → Bool)
    (raw : List (κ × ℚ)) : List (κ × ℚ) :=
  raw.foldl (fun acc p => if guard p.1 then mapInsertAdd p.1 p.2 acc else acc) []

/-- Common body of `processErrorsByStatusCode` and `processErrorsBySeverity`:
merge tallies, annotate with `totalErrors > 0 ?
Math.round((count / totalErrors) * 10000) / 100 : 0`, and sort by
descending count (`.sort((a, b) => b.count - a.count)`, a stable sort). -/
def processErrorBreakdown {κ : Type} [DecidableEq κ] (guard : κ → Bool)
    (raw : List (κ × ℚ)) (totalErrors : ℚ) : List (BreakdownEntry κ) :=
  ((mergeTallies guard raw).map fun p =>
    { key := p.1, count := p.2,
      percentage :=
        if 0 < totalErrors then (jsRound (p.2 / totalErrors * 10000) : ℚ) / 100
        else 0 }).insertionSort
    (fun a b => b.count ≤ a.count)

/-- `processErrorsByStatusCode`: the truthiness guard `error.statusCode`
skips a zero status code. -/
def processErrorsByStatusCode (errors : List (Int × ℚ)) (totalErrors : ℚ) :
    List (BreakdownEntry Int) :=
  processErrorBreakdown (fun k => k ≠ 0) errors totalErrors

/-- `processErrorsBySeverity`: the truthiness guard `error.severity` is
always true for the non-empty severity strings. -/
def processErrorsBySeverity (errors : List (Severity × ℚ)) (totalErrors : ℚ) :
    List (BreakdownEntry Severity) :=
  processErrorBreakdown (fun _ => true) errors totalErrors

/-- The per-service accumulator produced by the `$group`/`$project` stages. -/
structure GroupResult where
  servicename : String
  totalRequests : ℚ
  errorCount : ℚ
  responseTimes : List ℚ
  cpuUsages : List ℚ
  memoryUsages : List ℚ
  errorsByStatusCode : List (Int × ℚ)
  errorsBySeverity : List (Severity × ℚ)
deriving DecidableEq

/-- The `$group` stage restricted to the events of one service:
`totalRequests = Σ requestCount`; `errorCount = Σ requestCount` over events
with `statusCode >= 400`; pushed arrays in event order with `$ifNull` zero
substitution; error tallies only for error events (the `$filter` stage
drops the `null` entries pushed for non-error events). -/
def mkGroup (nm : String) (evs : List ServiceMetric) : GroupResult where
  servicename := nm
  totalRequests := (evs.map (fun m => m.requestCount)).sum
  errorCount := ((evs.filter isError).map (fun m => m.requestCount)).sum
  responseTimes := evs.map (fun m => m.responseTime)
  cpuUsages := evs.map (fun m => m.cpuUsage.getD 0)
  memoryUsages := evs.map (fun m => m.memoryUsage.getD 0)
  errorsByStatusCode := (evs.filter isError).map (fun m => (m.statusCode, m.requestCount))
  errorsBySeverity := (evs.filter isError).map (fun m => (m.severity, m.requestCount))

/-- Output `rate` sub-record. -/
structure RateStats where
  requestsPerSecond : ℚ
  requestsPerMinute : ℚ
  totalRequests : ℚ
deriving DecidableEq

/-- Output `error` sub-record. -/
structure ErrorStats where
  errorRate : ℚ
  errorCount : ℚ
  totalRequests : ℚ
  errorsByType : List (BreakdownEntry Int)
  errorsBySeverity : List (BreakdownEntry Severity)
deriving DecidableEq

/-- Output `duration` sub-record. -/
structure DurationStats where
  averageResponseTime : ℚ
  medianResponseTime : ℚ
  p95ResponseTime : ℚ
  p99ResponseTime : ℚ
  minResponseTime : ℚ
  maxResponseTime : ℚ
deriving DecidableEq

/-- Output `saturation` sub-record. -/
structure SaturationStats where
  averageCpuUsage : ℚ
  averageMemoryUsage : ℚ
  maxCpuUsage : ℚ
  maxMemoryUsage : ℚ
  resourceUtilization : Severity
deriving DecidableEq

/-- One `ServiceAggregation` output record. -/
structure ServiceAggregation where
  servicename : String
  rank : Int
  rate : RateStats
  error : ErrorStats
  duration : DurationStats
  saturation : SaturationStats
deriving DecidableEq

/-- `rate`: `Math.round((totalRequests / (timeRangeSeconds || 1)) * 100) / 100`
and the per-minute analogue. -/
def rateOf (secs mins : ℚ) (g : GroupResult) : RateStats where
  requestsPerSecond := round2 (g.totalRequests / jsOrOne secs)
  requestsPerMinute := round2 (g.totalRequests / jsOrOne mins)
  totalRequests := g.totalRequests

/-- `error`: `errorRate` is the `$project`ed `(errorCount / totalRequests) * 100`
rounded to 2 decimals; the two breakdowns are the processed tallies. -/
def errorOf (g : GroupResult) : ErrorStats where
  errorRate := round2 (g.errorCount / g.totalRequests * 100)
  errorCount := g.errorCount
  totalRequests := g.totalRequests
  errorsByType := processErrorsByStatusCode g.errorsByStatusCode g.errorCount
  errorsBySeverity := processErrorsBySeverity g.errorsBySeverity g.errorCount

/-- `duration`: `$avg` rounded; median at index `floor(n / 2)` of the
ascending-sorted array, rounded; `p95`/`p99` at `Math.floor(n * 0.95)` /
`Math.floor(n * 0.99)` of the ascending-sorted array, rounded; `$min`/`$max`
unrounded. -/
def durationOf (g : GroupResult) : DurationStats :=
  let sorted := sortAsc g.responseTimes
  let n := g.responseTimes.length
  { averageResponseTime := round2 (listAvg g.responseTimes)
    medianResponseTime := round2 (sorted.getD (n / 2) 0)
    p95ResponseTime := round2 (sorted.getD (p95Index n) 0)
    p99ResponseTime := round2 (sorted.getD (p99Index n) 0)
    minResponseTime := qMin g.responseTimes
    maxResponseTime := qMax g.responseTimes }

/-- `saturation`: rounded `$avg`s, unrounded `$max`es, and the utilization
class computed from the unrounded averages. -/
def saturationOf (g : GroupResult) : SaturationStats where
  averageCpuUsage := round2 (listAvg g.cpuUsages)
  averageMemoryUsage := round2 (listAvg g.memoryUsages)
  maxCpuUsage := qMax g.cpuUsages
  maxMemoryUsage := qMax g.memoryUsages
  resourceUtilization :=
    calculateResourceUtilization (listAvg g.cpuUsages) (listAvg g.memoryUsages)

/-- One element of `processedResults`: the `results.map` body, with the
provisional `rank: index + 1` that `rankServices` later overwrites. -/
def mkAggregation (secs mins : ℚ) (rank : Int) (g : GroupResult) :
    ServiceAggregation where
  servicename := g.servicename
  rank := rank
  rate := rateOf secs mins g
  error := errorOf g
  duration := durationOf g
  saturation := saturationOf g

/-- The sort key of `rankServices` for each `rankBy` criterion (the JS
comparators `(a, b) => b.key - a.key` sort descending by this key; the
`default` switch arm coincides with the `error` arm). -/
def rankKey (rb : RankBy) (s : ServiceAggregation) : ℚ :=
  match rb with
  | RankBy.rate => s.rate.requestsPerSecond
  | RankBy.error => s.error.errorRate
  | RankBy.duration => s.duration.averageResponseTime
  | RankBy.saturation => max s.saturation.averageCpuUsage s.saturation.averageMemoryUsage

/-- `{ ...service, rank := r }`. -/
def setRank (r : Int) (s : ServiceAggregation) : ServiceAggregation :=
  { s with rank := r }

/-- The stable descending sort of `rankServices` followed by the
`forEach((service, index) => service.rank = index + 1)` pass. -/
def rankedList (rb : RankBy) (services : List ServiceAggregation) :
    List ServiceAggregation :=
  ((services.insertionSort (fun a b => rankKey rb b ≤ rankKey rb a)).enum.map
    fun p => setRank ((p.1 : Int) + 1) p.2)

/-- `.slice(0, k)` for `k ≠ 0`: a non-negative end index takes the first
`k` elements; a negative end index counts from the end of the array. -/
def jsSliceTo {α : Type} (k : Int) (l : List α) : List α :=
  if 0 ≤ k then l.take k.toNat else l.take ((l.length : Int) + k).toNat

/-- `rankServices`: sort descending by the criterion, reassign ranks, then
`limit ? sortedServices.slice(0, limit) : sortedServices` — the truthiness
test means a `limit` of `0` does not truncate. -/
def rankServices (services : List ServiceAggregation) (rb : RankBy)
    (limit : Option Int) : List ServiceAggregation :=
  let ranked := rankedList rb services
  match limit with
  | none => ranked
  | some k => if k = 0 then ranked else jsSliceTo k ranked

/-- The distinct `$group` keys, in order of first appearance. -/
def firstOccurrences (l : List String) : List String :=
  l.foldl (fun acc nm => if nm ∈ acc then acc else acc ++ [nm]) []

/-- The events of one service that pass the query filters. -/
def groupEventsOf (now : Int) (evs : List ServiceMetric) (q : AggregationQuery)
    (nm : String) : List ServiceMetric :=
  evs.filter (fun m => matchesFilter now q m && m.servicename == nm)

/-- The error events of one service that pass the query filters. -/
def errorEventsOf (now : Int) (evs : List ServiceMetric) (q : AggregationQuery)
    (nm : String) : List ServiceMetric :=
  evs.filter (fun m => matchesFilter now q m && m.servicename == nm && isError m)

/-- `aggregateServiceMetrics`, with the event store made explicit: filter
(`$match`), group by `servicename`, derive per-service statistics
(`results.map`), then rank and truncate (`rankServices` with
`query.rankBy || 'error'` and `query.limit`). -/
def aggregateServiceMetrics (now : Int) (evs : List ServiceMetric)
    (q : AggregationQuery) : List ServiceAggregation :=
  let flt := evs.filter (matchesFilter now q)
  let names := firstOccurrences (flt.map (fun m => m.servicename))
  let groups := names.map (fun nm => mkGroup nm (flt.filter (fun m => m.servicename == nm)))
  let processed := groups.enum.map (fun p => mkAggregation (secsOf q) (minsOf q) ((p.1 : Int) + 1) p.2)
  rankServices processed (q.rankBy.getD RankBy.error) q.limit

/-! ### Rounding bounds -/

theorem round2_le (x : ℚ) : round2 x ≤ x + 1/200 := by
  unfold round2 jsRound
  rw [div_le_iff₀ (by norm_num : (0:ℚ) < 100)]
  have h := Int.floor_le (x * 100 + 1/2)
  linarith

theorem le_round2 (x : ℚ) : x - 1/200 ≤ round2 x := by
  unfold round2 jsRound
  rw [le_div_iff₀ (by norm_num : (0:ℚ) < 100)]
  have h := Int.sub_one_lt_floor (x * 100 + 1/2)
  linarith

theorem round2_nonneg {x : ℚ} (hx : 0 ≤ x) : 0 ≤ round2 x := by
  unfold round2 jsRound
  have h : (0:ℤ) ≤ ⌊x * 100 + 1/2⌋ := Int.le_floor.mpr (by push_cast; linarith)
  positivity

theorem round2_le_hundred {x : ℚ} (hx : x ≤ 100) : round2 x ≤ 100 := by
  unfold round2 jsRound
  rw [div_le_iff₀ (by norm_num : (0:ℚ) < 100)]
  have h : ⌊x * 100 + 1/2⌋ < (10001 : ℤ) := Int.floor_lt.mpr (by push_cast; linarith)
  have h2 : (⌊x * 100 + 1/2⌋ : ℚ) ≤ 10000 := by exact_mod_cast Int.lt_add_one_iff.mp h
  linarith

theorem abs_round2_sub_le (x : ℚ) : |round2 x - x| ≤ 1/200 := by
  rw [abs_le]
  constructor
  · have h := le_round2 x
    linarith
  · have h := round2_le x
    linarith

/-! ### Min / max / mean of a non-empty list -/

theorem foldl_min_le_init (l : List ℚ) (a : ℚ) : l.foldl min a ≤ a := by
  induction l generalizing a with
  | nil => exact le_refl a
  | cons b t ih => exact le_trans (ih (min a b)) (min_le_left a b)

theorem foldl_min_le_mem (l : List ℚ) (a x : ℚ) (hx : x ∈ l) : l.foldl min a ≤ x := by
  induction l generalizing a with
  | nil => cases hx
  | cons b t ih =>
    rcases List.mem_cons.mp hx with h | h
    · subst h
      exact le_trans (foldl_min_le_init t (min a x)) (min_le_right a x)
    · exact ih (min a b) h

theorem le_foldl_max_init (l : List ℚ) (a : ℚ) : a ≤ l.foldl max a := by
  induction l generalizing a with
  | nil => exact le_refl a
  | cons b t ih => exact le_trans (le_max_left a b) (ih (max a b))

theorem mem_le_foldl_max (l : List ℚ) (a x : ℚ) (hx : x ∈ l) : x ≤ l.foldl max a := by
  induction l generalizing a with
  | nil => cases hx
  | cons b t ih =>
    rcases List.mem_cons.mp hx with h | h
    · subst h
      exact le_trans (le_max_right a x) (le_foldl_max_init t (max a x))
    · exact ih (max a b) h

theorem qMin_le_of_mem {l : List ℚ} {x : ℚ} (hx : x ∈ l) : qMin l ≤ x := by
  cases l with
  | nil => cases hx
  | cons a t =>
    rcases List.mem_cons.mp hx with h | h
    · subst h
      exact foldl_min_le_init t x
    · exact foldl_min_le_mem t a x h

theorem le_qMax_of_mem {l : List ℚ} {x : ℚ} (hx : x ∈ l) : x ≤ qMax l := by
  cases l with
  | nil => cases hx
  | cons a t =>
    rcases List.mem_cons.mp hx with h | h
    · subst h
      exact le_foldl_max_init t x
    · exact mem_le_foldl_max t a x h

theorem mul_length_le_sum (l : List ℚ) (c : ℚ) (h : ∀ x ∈ l, c ≤ x) :
    c * l.length ≤ l.sum := by
  induction l with
  | nil => simp
  | cons a t ih =>
    have ha := h a (List.mem_cons_self a t)
    have ht := ih (fun x hx => h x (List.mem_cons_of_mem a hx))
    simp only [List.sum_cons, List.length_cons]
    push_cast
    linarith

theorem sum_le_mul_length (l : List ℚ) (c : ℚ) (h : ∀ x ∈ l, x ≤ c) :
    l.sum ≤ c * l.length := by
  induction l with
  | nil => simp
  | cons a t ih =>
    have ha := h a (List.mem_cons_self a t)
    have ht := ih (fun x hx => h x (List.mem_cons_of_mem a hx))
    simp only [List.sum_cons, List.length_cons]
    push_cast
    linarith

theorem qMin_le_listAvg {l : List ℚ} (h : l ≠ []) : qMin l ≤ listAvg l := by
  have hlen : 0 < (l.length : ℚ) := by
    have := List.length_pos.mpr h
    exact_mod_cast this
  unfold listAvg
  rw [le_div_iff₀ hlen]
  exact mul_length_le_sum l (qMin l) (fun x hx => qMin_le_of_mem hx)

theorem listAvg_le_qMax {l : List ℚ} (h : l ≠ []) : listAvg l ≤ qMax l := by
  have hlen : 0 < (l.length : ℚ) := by
    have := List.length_pos.mpr h
    exact_mod_cast this
  unfold listAvg
  rw [div_le_iff₀ hlen]
  exact sum_le_mul_length l (qMax l) (fun x hx => le_qMax_of_mem hx)

/-! ### Basic list access -/

theorem getD_mem_of_lt {α : Type} (l : List α) (n : Nat) (d : α)
    (h : n < l.length) : l.getD n d ∈ l := by
  rw [List.getD_eq_getElem l d h]
  exact List.getElem_mem h

theorem sortAsc_perm (l : List ℚ) : List.Perm (sortAsc l) l :=
  List.perm_insertionSort _ l

theorem sortAsc_length (l : List ℚ) : (sortAsc l).length = l.length :=
  (sortAsc_perm l).length_eq

theorem mem_of_mem_sortAsc {l : List ℚ} {x : ℚ} (hx : x ∈ sortAsc l) : x ∈ l :=
  (sortAsc_perm l).mem_iff.mp hx

/-! ### Filter plumbing -/

theorem filter_swap {α : Type} (l : List α) (p q : α → Bool) :
    (l.filter p).filter q = l.filter fun a => p a && q a := by
  rw [List.filter_filter]
  exact List.filter_congr fun a _ => by rw [Bool.and_comm]

theorem mem_foldl_insertAbsent (l : List String) (acc : List String) (x : String) :
    x ∈ l.foldl (fun acc nm => if nm ∈ acc then acc else acc ++ [nm]) acc ↔
      x ∈ acc ∨ x ∈ l := by
  induction l generalizing acc with
  | nil => simp
  | cons a t ih =>
    simp only [List.foldl_cons, ih, List.mem_cons]
    by_cases ha : a ∈ acc
    · rw [if_pos ha]
      constructor
      · rintro (h | h)
        · exact Or.inl h
        · exact Or.inr (Or.inr h)
      · rintro (h | h | h)
        · exact Or.inl h
        · exact Or.inl (h ▸ ha)
        · exact Or.inr h
    · rw [if_neg ha]
      simp only [List.mem_append, List.mem_singleton]
      tauto

theorem mem_firstOccurrences_iff (l : List String) (x : String) :
    x ∈ firstOccurrences l ↔ x ∈ l := by
  unfold firstOccurrences
  rw [mem_foldl_insertAbsent]
  simp

/-! ### Structure of the ranked output -/

theorem setRank_rate (r : Int) (s : ServiceAggregation) : (setRank r s).rate = s.rate := rfl

theorem setRank_error (r : Int) (s : ServiceAggregation) : (setRank r s).error = s.error := rfl

theorem setRank_duration (r : Int) (s : ServiceAggregation) :
    (setRank r s).duration = s.duration := rfl

theorem setRank_saturation (r : Int) (s : ServiceAggregation) :
    (setRank r s).saturation = s.saturation := rfl

theorem setRank_servicename (r : Int) (s : ServiceAggregation) :
    (setRank r s).servicename = s.servicename := rfl

theorem setRank_rank (r : Int) (s : ServiceAggregation) : (setRank r s).rank = r := rfl

theorem rankKey_setRank (rb : RankBy) (r : Int) (s : ServiceAggregation) :
    rankKey rb (setRank r s) = rankKey rb s := by
  cases rb <;> rfl

/-- The stable descending sort used by `rankServices`. -/
def rankSorted (rb : RankBy) (services : List ServiceAggregation) :
    List ServiceAggregation :=
  services.insertionSort (fun a b => rankKey rb b ≤ rankKey rb a)

theorem rankSorted_perm (rb : RankBy) (s : List ServiceAggregation) :
    List.Perm (rankSorted rb s) s :=
  List.perm_insertionSort _ s

theorem rankSorted_pairwise (rb : RankBy) (s : List ServiceAggregation) :
    (rankSorted rb s).Pairwise (fun a b => rankKey rb b ≤ rankKey rb a) := by
  haveI : IsTotal ServiceAggregation (fun a b => rankKey rb b ≤ rankKey rb a) :=
    ⟨fun a b => (le_total (rankKey rb a) (rankKey rb b)).symm⟩
  haveI : IsTrans ServiceAggregation (fun a b => rankKey rb b ≤ rankKey rb a) :=
    ⟨fun _ _ _ hab hbc => le_trans hbc hab⟩
  exact List.sorted_insertionSort _ s

theorem rankedList_eq_map (rb : RankBy) (s : List ServiceAggregation) :
    rankedList rb s = (rankSorted rb s).enum.map fun p => setRank ((p.1 : Int) + 1) p.2 := rfl

theorem rankedList_length (rb : RankBy) (s : List ServiceAggregation) :
    (rankedList rb s).length = s.length := by
  rw [rankedList_eq_map]
  simp [List.enum_length, (rankSorted_perm rb s).length_eq]

theorem rankSorted_length (rb : RankBy) (s : List ServiceAggregation) :
    (rankSorted rb s).length = s.length :=
  (rankSorted_perm rb s).length_eq

theorem rankedList_getElem (rb : RankBy) (s : List ServiceAggregation) (i : Nat)
    (hi : i < (rankedList rb s).length) (hi2 : i < (rankSorted rb s).length) :
    (rankedList rb s)[i] = setRank ((i : Int) + 1) ((rankSorted rb s)[i]) := by
  rw [List.getElem_of_eq (rankedList_eq_map rb s) hi, List.getElem_map, List.getElem_enum]

theorem rankServices_eq_take (s : List ServiceAggregation) (rb : RankBy)
    (lim : Option Int) :
    ∃ m, rankServices s rb lim = (rankedList rb s).take m := by
  match lim with
  | none => exact ⟨(rankedList rb s).length, (List.take_length _).symm⟩
  | some k =>
    by_cases hk : k = 0
    · refine ⟨(rankedList rb s).length, ?_⟩
      show (if k = 0 then rankedList rb s else jsSliceTo k (rankedList rb s)) = _
      rw [if_pos hk, List.take_length]
    · by_cases hk2 : 0 ≤ k
      · refine ⟨k.toNat, ?_⟩
        show (if k = 0 then rankedList rb s else jsSliceTo k (rankedList rb s)) = _
        rw [if_neg hk]
        unfold jsSliceTo
        rw [if_pos hk2]
      · refine ⟨(((rankedList rb s).length : Int) + k).toNat, ?_⟩
        show (if k = 0 then rankedList rb s else jsSliceTo k (rankedList rb s)) = _
        rw [if_neg hk]
        unfold jsSliceTo
        rw [if_neg hk2]

theorem mem_of_mem_rankServices {s : List ServiceAggregation} {rb : RankBy}
    {lim : Option Int} {g : ServiceAggregation}
    (hg : g ∈ rankServices s rb lim) : ∃ x ∈ s, ∃ r, g = setRank r x := by
  obtain ⟨m, hm⟩ := rankServices_eq_take s rb lim
  rw [hm] at hg
  have hg2 : g ∈ rankedList rb s := List.mem_of_mem_take hg
  rw [rankedList_eq_map] at hg2
  obtain ⟨p, hp, hpe⟩ := List.mem_map.mp hg2
  rw [List.enum_eq_zip_range] at hp
  have hsnd : p.2 ∈ rankSorted rb s := (List.of_mem_zip hp).2
  exact ⟨p.2, (rankSorted_perm rb s).mem_iff.mp hsnd, (p.1 : Int) + 1, hpe.symm⟩

/-! ### From output records back to event groups -/

/-- The list of per-service group accumulators the pipeline produces. -/
def groupsOf (now : Int) (evs : List ServiceMetric) (q : AggregationQuery) :
    List GroupResult :=
  let flt := evs.filter (matchesFilter now q)
  (firstOccurrences (flt.map (fun m => m.servicename))).map
    (fun nm => mkGroup nm (flt.filter (fun m => m.servicename == nm)))

/-- `processedResults` before ranking. -/
def processedOf (now : Int) (evs : List ServiceMetric) (q : AggregationQuery) :
    List ServiceAggregation :=
  (groupsOf now evs q).enum.map
    (fun p => mkAggregation (secsOf q) (minsOf q) ((p.1 : Int) + 1) p.2)

theorem aggregate_eq_rankServices (now : Int) (evs : List ServiceMetric)
    (q : AggregationQuery) :
    aggregateServiceMetrics now evs q =
      rankServices (processedOf now evs q) (q.rankBy.getD RankBy.error) q.limit := rfl

theorem mem_groupsOf {now : Int} {evs : List ServiceMetric} {q : AggregationQuery}
    {gr : GroupResult} (hgr : gr ∈ groupsOf now evs q) :
    ∃ nm, gr = mkGroup nm (groupEventsOf now evs q nm) ∧
      groupEventsOf now evs q nm ≠ [] := by
  unfold groupsOf at hgr
  obtain ⟨nm, hnm, he⟩ := List.mem_map.mp hgr
  refine ⟨nm, ?_, ?_⟩
  · rw [← he]
    unfold groupEventsOf
    rw [filter_swap]
  · rw [mem_firstOccurrences_iff] at hnm
    obtain ⟨m, hm, hmn⟩ := List.mem_map.mp hnm
    have hmat : matchesFilter now q m = true := (List.mem_filter.mp hm).2
    have hmev : m ∈ evs := (List.mem_filter.mp hm).1
    have : m ∈ groupEventsOf now evs q nm := by
      unfold groupEventsOf
      rw [List.mem_filter]
      exact ⟨hmev, by rw [hmat, hmn]; simp⟩
    intro hnil
    rw [hnil] at this
    cases this

theorem mem_processedOf {now : Int} {evs : List ServiceMetric} {q : AggregationQuery}
    {x : ServiceAggregation} (hx : x ∈ processedOf now evs q) :
    ∃ nm r, x = mkAggregation (secsOf q) (minsOf q) r
        (mkGroup nm (groupEventsOf now evs q nm)) ∧
      groupEventsOf now evs q nm ≠ [] := by
  unfold processedOf at hx
  obtain ⟨p, hp, he⟩ := List.mem_map.mp hx
  rw [List.enum_eq_zip_range] at hp
  have hsnd : p.2 ∈ groupsOf now evs q := (List.of_mem_zip hp).2
  obtain ⟨nm, hnm, hne⟩ := mem_groupsOf hsnd
  exact ⟨nm, (p.1 : Int) + 1, by rw [← he, hnm], hne⟩

theorem mem_aggregate {now : Int} {evs : List ServiceMetric} {q : AggregationQuery}
    {g : ServiceAggregation} (hg : g ∈ aggregateServiceMetrics now evs q) :
    groupEventsOf now evs q g.servicename ≠ [] ∧
    g.rate = rateOf (secsOf q) (minsOf q)
        (mkGroup g.servicename (groupEventsOf now evs q g.servicename)) ∧
    g.error = errorOf (mkGroup g.servicename (groupEventsOf now evs q g.servicename)) ∧
    g.duration =
      durationOf (mkGroup g.servicename (groupEventsOf now evs q g.servicename)) ∧
    g.saturation =
      saturationOf (mkGroup g.servicename (groupEventsOf now evs q g.servicename)) := by
  rw [aggregate_eq_rankServices] at hg
  obtain ⟨x, hxmem, r, hxr⟩ := mem_of_mem_rankServices hg
  obtain ⟨nm, r2, hx, hne⟩ := mem_processedOf hxmem
  have hname : g.servicename = nm := by
    rw [hxr, setRank_servicename, hx]
    rfl
  rw [hname, hxr, setRank_rate, setRank_error, setRank_duration, setRank_saturation, hx]
  exact ⟨hne, rfl, rfl, rfl, rfl⟩

theorem groupEventsOf_filter_isError (now : Int) (evs : List ServiceMetric)
    (q : AggregationQuery) (nm : String) :
    (groupEventsOf now evs q nm).filter isError = errorEventsOf now evs q nm :=
  filter_swap evs _ _

/-! ### Sums of request counts -/

theorem errSum_le_totSum (l : List ServiceMetric)
    (h : ∀ m ∈ l, (0:ℚ) ≤ m.requestCount) :
    ((l.filter isError).map (fun m => m.requestCount)).sum ≤
      (l.map (fun m => m.requestCount)).sum := by
  induction l with
  | nil => simp
  | cons a t ih =>
    have ha := h a (List.mem_cons_self a t)
    have ht := ih fun m hm => h m (List.mem_cons_of_mem a hm)
    by_cases he : isError a = true
    · rw [List.filter_cons_of_pos he]
      simp only [List.map_cons, List.sum_cons]
      linarith
    · rw [List.filter_cons_of_neg (by simpa using he)]
      simp only [List.map_cons, List.sum_cons]
      linarith

theorem errSum_nonneg (l : List ServiceMetric)
    (h : ∀ m ∈ l, (0:ℚ) ≤ m.requestCount) :
    0 ≤ ((l.filter isError).map (fun m => m.requestCount)).sum := by
  apply List.sum_nonneg
  intro x hx
  obtain ⟨m, hm, he⟩ := List.mem_map.mp hx
  exact he ▸ h m (List.mem_of_mem_filter hm)

theorem totSum_pos (l : List ServiceMetric) (hne : l ≠ [])
    (h : ∀ m ∈ l, (1:ℚ) ≤ m.requestCount) :
    0 < (l.map (fun m => m.requestCount)).sum := by
  cases l with
  | nil => exact absurd rfl hne
  | cons a t =>
    have ha := h a (List.mem_cons_self a t)
    have ht : 0 ≤ (t.map (fun m => m.requestCount)).sum := by
      apply List.sum_nonneg
      intro x hx
      obtain ⟨m, hm, he⟩ := List.mem_map.mp hx
      have := h m (List.mem_cons_of_mem a hm)
      linarith [he ▸ this]
    simp only [List.map_cons, List.sum_cons]
    linarith

/-! ### The claims -/

/-- C1: every service in the output has `totalRequests` equal to the sum of
`requestCount` over exactly the events matching the time window and the
service/severity filters with that `servicename`, and `errorCount` equal to
the same sum restricted to events with `statusCode >= 400`. -/
theorem claim1_group_totals (now : Int) (evs : List ServiceMetric)
    (q : AggregationQuery) (g : ServiceAggregation)
    (hg : g ∈ aggregateServiceMetrics now evs q) :
    g.rate.totalRequests
        = ((groupEventsOf now evs q g.servicename).map (fun m => m.requestCount)).sum ∧
    g.error.totalRequests
        = ((groupEventsOf now evs q g.servicename).map (fun m => m.requestCount)).sum ∧
    g.error.errorCount
        = ((errorEventsOf now evs q g.servicename).map (fun m => m.requestCount)).sum := by
  obtain ⟨hne, hrate, herr, hdur, hsat⟩ := mem_aggregate hg
  refine ⟨by rw [hrate]; rfl, by rw [herr]; rfl, ?_⟩
  rw [herr]
  show (((groupEventsOf now evs q g.servicename).filter isError).map
    (fun m => m.requestCount)).sum = _
  rw [groupEventsOf_filter_isError]

/-- C2: for every output service, `medianResponseTime` is the element at
index `floor(n/2)` of the ascending-sorted response times of its matching
events (rounded to 2 decimals), and `p95ResponseTime`/`p99ResponseTime` are
the elements at indices `floor(n*0.95)` and `floor(n*0.99)` of the same
sorted array (rounded to 2 decimals). -/
theorem claim2_percentiles (now : Int) (evs : List ServiceMetric)
    (q : AggregationQuery) (g : ServiceAggregation)
    (hg : g ∈ aggregateServiceMetrics now evs q) :
    g.duration.medianResponseTime
        = round2 ((sortAsc ((groupEventsOf now evs q g.servicename).map
            (fun m => m.responseTime))).getD
            (((groupEventsOf now evs q g.servicename).map
              (fun m => m.responseTime)).length / 2) 0) ∧
    g.duration.p95ResponseTime
        = round2 ((sortAsc ((groupEventsOf now evs q g.servicename).map
            (fun m => m.responseTime))).getD
            (p95Index ((groupEventsOf now evs q g.servicename).map
              (fun m => m.responseTime)).length) 0) ∧
    g.duration.p99ResponseTime
        = round2 ((sortAsc ((groupEventsOf now evs q g.servicename).map
            (fun m => m.responseTime))).getD
            (p99Index ((groupEventsOf now evs q g.servicename).map
              (fun m => m.responseTime)).length) 0) := by
  obtain ⟨hne, hrate, herr, hdur, hsat⟩ := mem_aggregate hg
  rw [hdur]
  exact ⟨rfl, rfl, rfl⟩

/-- C9: the aggregation is deterministic — the embedding is a pure
function of the evaluation instant, the event set and the query, so two
runs on the same inputs are identical in every field and element order. -/
theorem claim9_deterministic (now : Int) (evs : List ServiceMetric)
    (q : AggregationQuery) :
    aggregateServiceMetrics now evs q = aggregateServiceMetrics now evs q := rfl

/-- C10: for `n ≥ 1`, the unguarded percentile indices `floor(n*0.95)` and
`floor(n*0.99)` are at most `n - 1`, so the p95/p99 accesses into the
sorted length-`n` array are always in bounds. -/
theorem claim10_percentile_bounds (n : Nat) (h : 1 ≤ n) :
    p95Index n ≤ n - 1 ∧ p99Index n ≤ n - 1 := by
  have hn : (1:ℚ) ≤ (n : ℚ) := by exact_mod_cast h
  have h95 : ⌊(n : ℚ) * (95/100)⌋ < (n : Int) := by
    rw [Int.floor_lt]
    push_cast
    nlinarith
  have h99 : ⌊(n : ℚ) * (99/100)⌋ < (n : Int) := by
    rw [Int.floor_lt]
    push_cast
    nlinarith
  unfold p95Index p99Index
  omega

/-- C4: for every emitted service group the group has `totalRequests > 0`
(given the `requestCount >= 1` data invariant), `errorRate` equals
`100 * errorCount / totalRequests` rounded to 2 decimals, and `errorRate`
lies in `[0, 100]`. -/
theorem claim4_errorRate (now : Int) (evs : List ServiceMetric)
    (q : AggregationQuery) (g : ServiceAggregation)
    (hreq : ∀ m ∈ evs, (1:ℚ) ≤ m.requestCount)
    (hg : g ∈ aggregateServiceMetrics now evs q) :
    0 < g.error.totalRequests ∧
    g.error.errorRate = round2 (100 * g.error.errorCount / g.error.totalRequests) ∧
    0 ≤ g.error.errorRate ∧ g.error.errorRate ≤ 100 := by
  obtain ⟨hne, hrate, herr, hdur, hsat⟩ := mem_aggregate hg
  set grp := groupEventsOf now evs q g.servicename with hgrp
  have hsub : ∀ m ∈ grp, (1:ℚ) ≤ m.requestCount := fun m hm =>
    hreq m (List.mem_of_mem_filter hm)
  have hsub0 : ∀ m ∈ grp, (0:ℚ) ≤ m.requestCount := fun m hm => by
    linarith [hsub m hm]
  have hT : 0 < (grp.map (fun m => m.requestCount)).sum := totSum_pos grp hne hsub
  have hE0 : 0 ≤ ((grp.filter isError).map (fun m => m.requestCount)).sum :=
    errSum_nonneg grp hsub0
  have hET : ((grp.filter isError).map (fun m => m.requestCount)).sum ≤
      (grp.map (fun m => m.requestCount)).sum := errSum_le_totSum grp hsub0
  have htotal : g.error.totalRequests = (grp.map (fun m => m.requestCount)).sum := by
    rw [herr]; rfl
  have hcount : g.error.errorCount =
      ((grp.filter isError).map (fun m => m.requestCount)).sum := by
    rw [herr]; rfl
  have hrateq : g.error.errorRate =
      round2 (g.error.errorCount / g.error.totalRequests * 100) := by
    rw [herr]; rfl
  have hfrac0 : 0 ≤ g.error.errorCount / g.error.totalRequests * 100 := by
    rw [htotal, hcount]
    positivity
  have hfrac100 : g.error.errorCount / g.error.totalRequests * 100 ≤ 100 := by
    rw [htotal, hcount]
    have : ((grp.filter isError).map (fun m => m.requestCount)).sum /
        (grp.map (fun m => m.requestCount)).sum ≤ 1 :=
      (div_le_one hT).mpr hET
    linarith
  refine ⟨htotal ▸ hT, ?_, ?_, ?_⟩
  · rw [hrateq]
    congr 1
    ring
  · rw [hrateq]
    exact round2_nonneg hfrac0
  · rw [hrateq]
    exact round2_le_hundred hfrac100

/-- C8 (amended): the rounded `medianResponseTime` and
`averageResponseTime` of every emitted group lie within half a rounding
unit (1/200) of the reported unrounded `[min, max]` range; the unamended
`min <= median` fails on events whose response time rounds down below the
minimum (see the counterexample). -/
theorem claim8_duration_bounds (now : Int) (evs : List ServiceMetric)
    (q : AggregationQuery) (g : ServiceAggregation)
    (hg : g ∈ aggregateServiceMetrics now evs q) :
    g.duration.minResponseTime - 1/200 ≤ g.duration.medianResponseTime ∧
    g.duration.medianResponseTime ≤ g.duration.maxResponseTime + 1/200 ∧
    g.duration.minResponseTime - 1/200 ≤ g.duration.averageResponseTime ∧
    g.duration.averageResponseTime ≤ g.duration.maxResponseTime + 1/200 := by
  obtain ⟨hne, hrate, herr, hdur, hsat⟩ := mem_aggregate hg
  set grp := groupEventsOf now evs q g.servicename with hgrp
  set rts := grp.map (fun m => m.responseTime) with hrts
  have hrtsne : rts ≠ [] := by
    rw [hrts]
    simpa [List.map_eq_nil_iff] using hne
  have hlen : 0 < rts.length := List.length_pos.mpr hrtsne
  have hmed : g.duration.medianResponseTime =
      round2 ((sortAsc rts).getD (rts.length / 2) 0) := by
    rw [hdur]; rfl
  have hmin : g.duration.minResponseTime = qMin rts := by rw [hdur]; rfl
  have hmax : g.duration.maxResponseTime = qMax rts := by rw [hdur]; rfl
  have havg : g.duration.averageResponseTime = round2 (listAvg rts) := by
    rw [hdur]; rfl
  have hmedmem : (sortAsc rts).getD (rts.length / 2) 0 ∈ rts := by
    apply mem_of_mem_sortAsc
    apply getD_mem_of_lt
    rw [sortAsc_length]
    exact Nat.div_lt_self hlen (by norm_num)
  have h1 := qMin_le_of_mem hmedmem
  have h2 := le_qMax_of_mem hmedmem
  have h3 := le_round2 ((sortAsc rts).getD (rts.length / 2) 0)
  have h4 := round2_le ((sortAsc rts).getD (rts.length / 2) 0)
  have h5 := qMin_le_listAvg hrtsne
  have h6 := listAvg_le_qMax hrtsne
  have h7 := le_round2 (listAvg rts)
  have h8 := round2_le (listAvg rts)
  rw [hmed, hmin, hmax, havg]
  refine ⟨by linarith, by linarith, by linarith, by linarith⟩

/-- Default record used with `List.getD` when indexing output lists. -/
def defaultAggregation : ServiceAggregation := mkAggregation 0 0 0 (mkGroup "" [])

/-- C3: the output list is sorted in descending order of the requested
criterion's key (`requestsPerSecond` for rate, `errorRate` for error and
for an absent `rankBy`, `averageResponseTime` for duration,
`max(averageCpuUsage, averageMemoryUsage)` for saturation), and each output
record's `rank` equals its 1-based position, with no gaps. -/
theorem claim3_ranking (now : Int) (evs : List ServiceMetric)
    (q : AggregationQuery) :
    (∀ i : Nat, i + 1 < (aggregateServiceMetrics now evs q).length →
      rankKey (q.rankBy.getD RankBy.error)
          ((aggregateServiceMetrics now evs q).getD (i+1) defaultAggregation) ≤
        rankKey (q.rankBy.getD RankBy.error)
          ((aggregateServiceMetrics now evs q).getD i defaultAggregation)) ∧
    (∀ i : Nat, i < (aggregateServiceMetrics now evs q).length →
      ((aggregateServiceMetrics now evs q).getD i defaultAggregation).rank
        = (i : Int) + 1) := by
  obtain ⟨m, hm⟩ :=
    rankServices_eq_take (processedOf now evs q) (q.rankBy.getD RankBy.error) q.limit
  rw [aggregate_eq_rankServices, hm]
  have hlen : ((rankedList (q.rankBy.getD RankBy.error) (processedOf now evs q)).take m).length ≤
      (rankedList (q.rankBy.getD RankBy.error) (processedOf now evs q)).length := by
    rw [List.length_take]
    exact min_le_right _ _
  constructor
  · intro i hi
    have hi0 : i < ((rankedList (q.rankBy.getD RankBy.error) (processedOf now evs q)).take m).length :=
      Nat.lt_of_succ_lt hi
    have hs1 : i + 1 < (rankSorted (q.rankBy.getD RankBy.error) (processedOf now evs q)).length := by
      rw [rankSorted_length, ← rankedList_length (q.rankBy.getD RankBy.error) (processedOf now evs q)]
      exact lt_of_lt_of_le hi hlen
    have hs0 : i < (rankSorted (q.rankBy.getD RankBy.error) (processedOf now evs q)).length := by
      rw [rankSorted_length, ← rankedList_length (q.rankBy.getD RankBy.error) (processedOf now evs q)]
      exact lt_of_lt_of_le hi0 hlen
    rw [List.getD_eq_getElem _ _ hi, List.getD_eq_getElem _ _ hi0,
      List.getElem_take, List.getElem_take,
      rankedList_getElem _ _ _ (lt_of_lt_of_le hi hlen) hs1,
      rankedList_getElem _ _ _ (lt_of_lt_of_le hi0 hlen) hs0,
      rankKey_setRank, rankKey_setRank]
    have hp := rankSorted_pairwise (q.rankBy.getD RankBy.error) (processedOf now evs q)
    rw [List.pairwise_iff_getElem] at hp
    exact hp i (i+1) _ _ (Nat.lt_succ_self i)
  · intro i hi
    have hs0 : i < (rankSorted (q.rankBy.getD RankBy.error) (processedOf now evs q)).length := by
      rw [rankSorted_length, ← rankedList_length (q.rankBy.getD RankBy.error) (processedOf now evs q)]
      exact lt_of_lt_of_le hi hlen
    rw [List.getD_eq_getElem _ _ hi, List.getElem_take,
      rankedList_getElem _ _ _ (lt_of_lt_of_le hi hlen) hs0, setRank_rank]

/-- C6 (amended): when `limit` is set to a positive `k`, the output is
exactly the first `k` entries of the ranked order (the output of the same
query without a limit), hence has at most `k` entries; a `limit` of `0` is
falsy in JS and does not truncate (see the counterexample). -/
theorem claim6_limit_truncates (now : Int) (evs : List ServiceMetric)
    (q : AggregationQuery) (k : Int) (hk : q.limit = some k) (hpos : 0 < k) :
    (aggregateServiceMetrics now evs q).length ≤ k.toNat ∧
    aggregateServiceMetrics now evs q =
      (aggregateServiceMetrics now evs { q with limit := none }).take k.toNat := by
  have e2 : aggregateServiceMetrics now evs { q with limit := none } =
      rankedList (q.rankBy.getD RankBy.error) (processedOf now evs q) := rfl
  have e1 : aggregateServiceMetrics now evs q =
      (rankedList (q.rankBy.getD RankBy.error) (processedOf now evs q)).take k.toNat := by
    rw [aggregate_eq_rankServices, hk]
    show (if k = 0 then _ else jsSliceTo k _) = _
    rw [if_neg (by omega), jsSliceTo, if_pos (le_of_lt hpos)]
  constructor
  · rw [e1, List.length_take]
    exact min_le_left _ _
  · rw [e1, e2]

theorem getTimeRangeInMinutes_nonneg (tr : TimeRange) :
    0 ≤ getTimeRangeInMinutes tr := by
  cases tr <;> decide

theorem aggregate_nil_of_no_match (now : Int) (evs : List ServiceMetric)
    (q : AggregationQuery) (h : ∀ m ∈ evs, matchesFilter now q m = false) :
    aggregateServiceMetrics now evs q = [] := by
  have hflt : evs.filter (matchesFilter now q) = [] := by
    rw [List.filter_eq_nil_iff]
    intro a ha
    simp [h a ha]
  have hproc : processedOf now evs q = [] := by
    unfold processedOf groupsOf
    rw [hflt]
    rfl
  rw [aggregate_eq_rankServices, hproc]
  obtain ⟨m, hm⟩ := rankServices_eq_take [] (q.rankBy.getD RankBy.error) q.limit
  rw [hm]
  have : rankedList (q.rankBy.getD RankBy.error) ([] : List ServiceAggregation) = [] := rfl
  rw [this, List.take_nil]

/-- C7 (amended): named ranges resolve to their fixed durations; custom
bounds resolve to `endDate - startDate`; missing or partial custom bounds
resolve to the 86400 s default; a zero resolved duration is coerced to 1 s,
so the rate divisor is never zero — but a negative duration is truthy in JS
and is NOT coerced (see the counterexample); whenever the resolved duration
is negative the time filter is unsatisfiable and the output is empty, so no
emitted record ever divides by a nonpositive duration. -/
theorem claim7_window_divisor (now : Int) (evs : List ServiceMetric)
    (q : AggregationQuery) :
    jsOrOne (secsOf q) ≠ 0 ∧
    (q.timeRange = some TimeRange.fiveMinutes → secsOf q = 300) ∧
    (q.timeRange = some TimeRange.tenMinutes → secsOf q = 600) ∧
    (q.timeRange = some TimeRange.oneHour → secsOf q = 3600) ∧
    (q.timeRange = some TimeRange.twentyFourHours → secsOf q = 86400) ∧
    (q.timeRange = some TimeRange.sevenDays → secsOf q = 604800) ∧
    (∀ s e : Int, (q.timeRange = none ∨ q.timeRange = some TimeRange.custom) →
      q.startDate = some s → q.endDate = some e →
      secsOf q = ((e - s : Int) : ℚ) / 1000) ∧
    ((q.timeRange = none ∨ q.timeRange = some TimeRange.custom) →
      (q.startDate = none ∨ q.endDate = none) → secsOf q = 86400) ∧
    (secsOf q = 0 → jsOrOne (secsOf q) = 1) ∧
    (secsOf q < 0 → aggregateServiceMetrics now evs q = []) := by
  refine ⟨?_, ?_, ?_, ?_, ?_, ?_, ?_, ?_, ?_, ?_⟩
  · unfold jsOrOne
    split_ifs with h
    · norm_num
    · exact h
  · intro h
    simp [secsOf, getTimeRangeInMs, h, getTimeRangeInMinutes]
    norm_num
  · intro h
    simp [secsOf, getTimeRangeInMs, h, getTimeRangeInMinutes]
    norm_num
  · intro h
    simp [secsOf, getTimeRangeInMs, h, getTimeRangeInMinutes]
    norm_num
  · intro h
    simp [secsOf, getTimeRangeInMs, h, getTimeRangeInMinutes]
    norm_num
  · intro h
    simp [secsOf, getTimeRangeInMs, h, getTimeRangeInMinutes]
    norm_num
  · rintro s e (h | h) hs he <;> simp [secsOf, getTimeRangeInMs, h, hs, he]
  · rintro (h | h) (hs | hs)
    · cases he : q.endDate <;> simp [secsOf, getTimeRangeInMs, h, hs, he] <;> norm_num
    · cases hst : q.startDate <;> simp [secsOf, getTimeRangeInMs, h, hst, hs] <;> norm_num
    · cases he : q.endDate <;> simp [secsOf, getTimeRangeInMs, h, hs, he] <;> norm_num
    · cases hst : q.startDate <;> simp [secsOf, getTimeRangeInMs, h, hst, hs] <;> norm_num
  · intro h
    simp [jsOrOne, h]
  · intro hneg
    have hms : getTimeRangeInMs q < 0 := by
      by_contra hge
      push_neg at hge
      have : (0:ℚ) ≤ (getTimeRangeInMs q : ℚ) / 1000 := by
        have : (0:ℚ) ≤ (getTimeRangeInMs q : ℚ) := by exact_mod_cast hge
        positivity
      unfold secsOf at hneg
      linarith
    apply aggregate_nil_of_no_match
    intro m hm
    match htr : q.timeRange with
    | some tr =>
      by_cases hc : tr = TimeRange.custom
      · subst hc
        match hst : q.startDate, hen : q.endDate with
        | some s, some e =>
          have hes : e < s := by
            have : getTimeRangeInMs q = e - s := by
              simp [getTimeRangeInMs, htr, hst, hen]
            omega
          unfold matchesFilter
          rw [buildDateFilter, htr]
          simp only [hst, hen, if_neg (by simp : ¬TimeRange.custom ≠ TimeRange.custom)]
          have : ¬(s ≤ m.timestamp ∧ m.timestamp ≤ e) := by omega
          by_cases h1 : s ≤ m.timestamp
          · have h2 : ¬(m.timestamp ≤ e) := fun h2 => this ⟨h1, h2⟩
            simp [h1, h2]
          · simp [h1]
        | some s, none =>
          have : getTimeRangeInMs q = 86400000 := by
            simp [getTimeRangeInMs, htr, hst, hen]
          omega
        | none, _ =>
          have : getTimeRangeInMs q = 86400000 := by
            simp [getTimeRangeInMs, htr, hst]
          omega
      · have : getTimeRangeInMs q = getTimeRangeInMinutes tr * 60 * 1000 := by
          simp [getTimeRangeInMs, htr, hc]
        have hnn := getTimeRangeInMinutes_nonneg tr
        omega
    | none =>
      match hst : q.startDate, hen : q.endDate with
      | some s, some e =>
        have hes : e < s := by
          have : getTimeRangeInMs q = e - s := by
            simp [getTimeRangeInMs, htr, hst, hen]
          omega
        unfold matchesFilter
        rw [buildDateFilter, htr]
        simp only [hst, hen]
        by_cases h1 : s ≤ m.timestamp
        · have h2 : ¬(m.timestamp ≤ e) := by omega
          simp [h1, h2]
        · simp [h1]
      | some s, none =>
        have : getTimeRangeInMs q = 86400000 := by
          simp [getTimeRangeInMs, htr, hst, hen]
        omega
      | none, _ =>
        have : getTimeRangeInMs q = 86400000 := by
          simp [getTimeRangeInMs, htr, hst]
        omega

/-! ### Merged-tally bookkeeping for the breakdown arrays -/

/-- Sum of the counts carried by the entries of an association list whose
key is `k`. -/
def keyCountSum {κ : Type} [DecidableEq κ] (k : κ) (l : List (κ × ℚ)) : ℚ :=
  ((l.filter (fun p => decide (p.1 = k))).map (fun p => p.2)).sum

/-- Sum of the counts of the guard-passing raw tallies with key `k`. -/
def guardedKeySum {κ : Type} [DecidableEq κ] (guard : κ → Bool) (k : κ)
    (raw : List (κ × ℚ)) : ℚ :=
  ((raw.filter (fun p => guard p.1 && decide (p.1 = k))).map (fun p => p.2)).sum

theorem keyCountSum_nil {κ : Type} [DecidableEq κ] (k : κ) :
    keyCountSum k ([] : List (κ × ℚ)) = 0 := rfl

theorem keyCountSum_cons {κ : Type} [DecidableEq κ] (k : κ) (p : κ × ℚ)
    (l : List (κ × ℚ)) :
    keyCountSum k (p :: l) = (if p.1 = k then p.2 else 0) + keyCountSum k l := by
  unfold keyCountSum
  by_cases h : p.1 = k
  · rw [List.filter_cons_of_pos (by simpa using h)]
    simp [h]
  · rw [List.filter_cons_of_neg (by simpa using h)]
    simp [h]

theorem keyCountSum_mapInsertAdd {κ : Type} [DecidableEq κ] (k : κ) (c : ℚ)
    (acc : List (κ × ℚ)) (k' : κ) :
    keyCountSum k' (mapInsertAdd k c acc) =
      keyCountSum k' acc + (if k = k' then c else 0) := by
  induction acc with
  | nil =>
    show keyCountSum k' [(k, c)] = keyCountSum k' [] + _
    rw [keyCountSum_cons]
    by_cases h : k = k' <;> simp [h, keyCountSum_nil]
  | cons p rest ih =>
    show keyCountSum k' (if p.1 = k then (p.1, p.2 + c) :: rest else
      p :: mapInsertAdd k c rest) = _
    by_cases hpk : p.1 = k
    · rw [if_pos hpk, keyCountSum_cons, keyCountSum_cons]
      by_cases h : k = k'
      · rw [if_pos (hpk.trans h), if_pos (hpk.trans h), if_pos h]
        ring
      · rw [if_neg (fun hc => h (hpk ▸ hc)), if_neg (fun hc => h (hpk ▸ hc)), if_neg h]
        ring
    · rw [if_neg hpk, keyCountSum_cons, keyCountSum_cons, ih]
      ring

theorem countsSum_mapInsertAdd {κ : Type} [DecidableEq κ] (k : κ) (c : ℚ)
    (acc : List (κ × ℚ)) :
    ((mapInsertAdd k c acc).map (fun p => p.2)).sum =
      (acc.map (fun p => p.2)).sum + c := by
  induction acc with
  | nil => simp [mapInsertAdd]
  | cons p rest ih =>
    show ((if p.1 = k then (p.1, p.2 + c) :: rest else
      p :: mapInsertAdd k c rest).map (fun p => p.2)).sum = _
    by_cases hpk : p.1 = k
    · rw [if_pos hpk]
      simp only [List.map_cons, List.sum_cons]
      ring
    · rw [if_neg hpk]
      simp only [List.map_cons, List.sum_cons, ih]
      ring

theorem mem_keys_mapInsertAdd {κ : Type} [DecidableEq κ] (k : κ) (c : ℚ)
    (acc : List (κ × ℚ)) (k' : κ) :
    k' ∈ (mapInsertAdd k c acc).map Prod.fst ↔
      k' ∈ acc.map Prod.fst ∨ k' = k := by
  induction acc with
  | nil => simp [mapInsertAdd]
  | cons p rest ih =>
    show k' ∈ (if p.1 = k then (p.1, p.2 + c) :: rest else
      p :: mapInsertAdd k c rest).map Prod.fst ↔ _
    by_cases hpk : p.1 = k
    · rw [if_pos hpk]
      simp only [List.map_cons, List.mem_cons]
      constructor
      · rintro (h | h)
        · exact Or.inl (Or.inl h)
        · exact Or.inl (Or.inr h)
      · rintro ((h | h) | h)
        · exact Or.inl h
        · exact Or.inr h
        · exact Or.inl (h.trans hpk.symm)
    · rw [if_neg hpk]
      simp only [List.map_cons, List.mem_cons, ih]
      tauto

theorem nodup_keys_mapInsertAdd {κ : Type} [DecidableEq κ] (k : κ) (c : ℚ)
    (acc : List (κ × ℚ)) (h : (acc.map Prod.fst).Nodup) :
    ((mapInsertAdd k c acc).map Prod.fst).Nodup := by
  induction acc with
  | nil => simp [mapInsertAdd]
  | cons p rest ih =>
    show (if p.1 = k then (p.1, p.2 + c) :: rest else
      p :: mapInsertAdd k c rest).map Prod.fst |>.Nodup
    simp only [List.map_cons, List.nodup_cons] at h
    by_cases hpk : p.1 = k
    · rw [if_pos hpk]
      simp only [List.map_cons, List.nodup_cons]
      exact h
    · rw [if_neg hpk]
      simp only [List.map_cons, List.nodup_cons]
      refine ⟨?_, ih h.2⟩
      rw [mem_keys_mapInsertAdd]
      rintro (hc | hc)
      · exact h.1 hc
      · exact hpk hc

theorem guardedKeySum_nil {κ : Type} [DecidableEq κ] (guard : κ → Bool) (k : κ) :
    guardedKeySum guard k [] = 0 := rfl

theorem guardedKeySum_cons {κ : Type} [DecidableEq κ] (guard : κ → Bool) (k : κ)
    (p : κ × ℚ) (raw : List (κ × ℚ)) :
    guardedKeySum guard k (p :: raw) =
      (if guard p.1 && decide (p.1 = k) then p.2 else 0) + guardedKeySum guard k raw := by
  unfold guardedKeySum
  rw [List.filter_cons]
  by_cases h : (guard p.1 && decide (p.1 = k)) = true
  · rw [if_pos h, if_pos h]
    simp
  · rw [if_neg h, if_neg h]
    simp

theorem keyCountSum_mergeFold {κ : Type} [DecidableEq κ] (guard : κ → Bool)
    (raw : List (κ × ℚ)) :
    ∀ (acc : List (κ × ℚ)) (k' : κ),
      keyCountSum k'
          (raw.foldl (fun acc p => if guard p.1 then mapInsertAdd p.1 p.2 acc else acc) acc) =
        keyCountSum k' acc + guardedKeySum guard k' raw := by
  induction raw with
  | nil =>
    intro acc k'
    rw [List.foldl_nil, guardedKeySum_nil, add_zero]
  | cons p rest ih =>
    intro acc k'
    rw [List.foldl_cons, ih, guardedKeySum_cons]
    by_cases hg : guard p.1 = true
    · rw [if_pos hg, keyCountSum_mapInsertAdd]
      by_cases hk : p.1 = k'
      · have hg2 : guard k' = true := by rw [← hk]; exact hg
        rw [if_pos hk, if_pos (by simp [hg2, hk])]
        ring
      · rw [if_neg hk, if_neg (by simp [hg, hk])]
        ring
    · rw [if_neg hg, if_neg (by simp [hg])]
      ring

theorem countsSum_mergeFold {κ : Type} [DecidableEq κ] (guard : κ → Bool)
    (raw : List (κ × ℚ)) :
    ∀ acc : List (κ × ℚ),
      (((raw.foldl (fun acc p => if guard p.1 then mapInsertAdd p.1 p.2 acc else acc)
          acc).map (fun p => p.2)).sum) =
        ((acc.map (fun p => p.2)).sum) +
          ((raw.filter (fun p => guard p.1)).map (fun p => p.2)).sum := by
  induction raw with
  | nil =>
    intro acc
    simp
  | cons p rest ih =>
    intro acc
    rw [List.foldl_cons, ih]
    by_cases hg : guard p.1 = true
    · rw [if_pos hg, countsSum_mapInsertAdd, List.filter_cons, if_pos hg]
      simp only [List.map_cons, List.sum_cons]
      ring
    · rw [if_neg hg, List.filter_cons, if_neg hg]

theorem mem_keys_mergeFold {κ : Type} [DecidableEq κ] (guard : κ → Bool)
    (raw : List (κ × ℚ)) :
    ∀ (acc : List (κ × ℚ)) (k' : κ),
      (k' ∈ (raw.foldl (fun acc p => if guard p.1 then mapInsertAdd p.1 p.2 acc else acc)
          acc).map Prod.fst) ↔
        k' ∈ acc.map Prod.fst ∨ (guard k' = true ∧ ∃ c, (k', c) ∈ raw) := by
  induction raw with
  | nil =>
    intro acc k'
    simp
  | cons p rest ih =>
    intro acc k'
    rw [List.foldl_cons, ih]
    by_cases hg : guard p.1 = true
    · rw [if_pos hg, mem_keys_mapInsertAdd]
      constructor
      · rintro ((h | h) | h)
        · exact Or.inl h
        · exact Or.inr ⟨by rw [h]; exact hg, p.2, List.mem_cons.mpr (Or.inl (by rw [h]))⟩
        · exact Or.inr ⟨h.1, h.2.choose, List.mem_cons_of_mem p h.2.choose_spec⟩
      · rintro (h | ⟨hgk, c, hc⟩)
        · exact Or.inl (Or.inl h)
        · rcases List.mem_cons.mp hc with hc | hc
          · exact Or.inl (Or.inr (by rw [← hc]))
          · exact Or.inr ⟨hgk, c, hc⟩
    · rw [if_neg hg]
      constructor
      · rintro (h | h)
        · exact Or.inl h
        · exact Or.inr ⟨h.1, h.2.choose, List.mem_cons_of_mem p h.2.choose_spec⟩
      · rintro (h | ⟨hgk, c, hc⟩)
        · exact Or.inl h
        · rcases List.mem_cons.mp hc with hc | hc
          · exfalso
            apply hg
            have hkp : k' = p.1 := by rw [← hc]
            rw [← hkp]
            exact hgk
          · exact Or.inr ⟨hgk, c, hc⟩

theorem nodup_keys_mergeFold {κ : Type} [DecidableEq κ] (guard : κ → Bool)
    (raw : List (κ × ℚ)) :
    ∀ acc : List (κ × ℚ), (acc.map Prod.fst).Nodup →
      ((raw.foldl (fun acc p => if guard p.1 then mapInsertAdd p.1 p.2 acc else acc)
        acc).map Prod.fst).Nodup := by
  induction raw with
  | nil =>
    intro acc h
    simpa using h
  | cons p rest ih =>
    intro acc h
    rw [List.foldl_cons]
    by_cases hg : guard p.1 = true
    · rw [if_pos hg]
      exact ih _ (nodup_keys_mapInsertAdd p.1 p.2 acc h)
    · rw [if_neg hg]
      exact ih _ h

theorem mergeTallies_keyCountSum {κ : Type} [DecidableEq κ] (guard : κ → Bool)
    (raw : List (κ × ℚ)) (k : κ) :
    keyCountSum k (mergeTallies guard raw) = guardedKeySum guard k raw := by
  unfold mergeTallies
  rw [keyCountSum_mergeFold, keyCountSum_nil, zero_add]

theorem mergeTallies_countsSum {κ : Type} [DecidableEq κ] (guard : κ → Bool)
    (raw : List (κ × ℚ)) :
    ((mergeTallies guard raw).map (fun p => p.2)).sum =
      ((raw.filter (fun p => guard p.1)).map (fun p => p.2)).sum := by
  unfold mergeTallies
  rw [countsSum_mergeFold]
  simp

theorem mergeTallies_mem_keys {κ : Type} [DecidableEq κ] (guard : κ → Bool)
    (raw : List (κ × ℚ)) (k : κ) :
    k ∈ (mergeTallies guard raw).map Prod.fst ↔
      guard k = true ∧ ∃ c, (k, c) ∈ raw := by
  unfold mergeTallies
  rw [mem_keys_mergeFold]
  simp

theorem mergeTallies_nodup_keys {κ : Type} [DecidableEq κ] (guard : κ → Bool)
    (raw : List (κ × ℚ)) : ((mergeTallies guard raw).map Prod.fst).Nodup := by
  unfold mergeTallies
  exact nodup_keys_mergeFold guard raw [] (by simp)

theorem keyCountSum_eq_zero_of_not_mem {κ : Type} [DecidableEq κ] {k : κ}
    {l : List (κ × ℚ)} (h : k ∉ l.map Prod.fst) : keyCountSum k l = 0 := by
  induction l with
  | nil => rfl
  | cons p rest ih =>
    simp only [List.map_cons, List.mem_cons] at h
    push_neg at h
    rw [keyCountSum_cons, if_neg (fun hc => h.1 hc.symm), ih h.2, add_zero]

theorem keyCountSum_eq_of_mem_nodup {κ : Type} [DecidableEq κ]
    {l : List (κ × ℚ)} (h : (l.map Prod.fst).Nodup) {k : κ} {c : ℚ}
    (hm : (k, c) ∈ l) : keyCountSum k l = c := by
  induction l with
  | nil => cases hm
  | cons p rest ih =>
    simp only [List.map_cons, List.nodup_cons] at h
    rcases List.mem_cons.mp hm with hm | hm
    · have hk : p.1 = k := by rw [← hm]
      have hc : p.2 = c := by rw [← hm]
      rw [keyCountSum_cons, if_pos hk, hc,
        keyCountSum_eq_zero_of_not_mem (hk ▸ h.1), add_zero]
    · have hk : p.1 ≠ k := by
        intro hc
        exact h.1 (hc ▸ List.mem_map_of_mem Prod.fst hm)
      rw [keyCountSum_cons, if_neg hk, ih h.2 hm, zero_add]

/-! ### Properties of the processed breakdown arrays -/

/-- The entry constructed from one merged tally. -/
def tallyEntry {κ : Type} (totalErrors : ℚ) (p : κ × ℚ) : BreakdownEntry κ :=
  { key := p.1, count := p.2,
    percentage :=
      if 0 < totalErrors then (jsRound (p.2 / totalErrors * 10000) : ℚ) / 100
      else 0 }

theorem processErrorBreakdown_eq {κ : Type} [DecidableEq κ] (guard : κ → Bool)
    (raw : List (κ × ℚ)) (totalErrors : ℚ) :
    processErrorBreakdown guard raw totalErrors =
      ((mergeTallies guard raw).map (tallyEntry totalErrors)).insertionSort
        (fun a b => b.count ≤ a.count) := rfl

theorem breakdown_perm {κ : Type} [DecidableEq κ] (guard : κ → Bool)
    (raw : List (κ × ℚ)) (totalErrors : ℚ) :
    List.Perm (processErrorBreakdown guard raw totalErrors)
      ((mergeTallies guard raw).map (tallyEntry totalErrors)) := by
  rw [processErrorBreakdown_eq]
  exact List.perm_insertionSort _ _

theorem breakdown_pairwise {κ : Type} [DecidableEq κ] (guard : κ → Bool)
    (raw : List (κ × ℚ)) (totalErrors : ℚ) :
    (processErrorBreakdown guard raw totalErrors).Pairwise
      (fun a b : BreakdownEntry κ => b.count ≤ a.count) := by
  haveI : IsTotal (BreakdownEntry κ) (fun a b => b.count ≤ a.count) :=
    ⟨fun a b => (le_total a.count b.count).symm⟩
  haveI : IsTrans (BreakdownEntry κ) (fun a b => b.count ≤ a.count) :=
    ⟨fun _ _ _ hab hbc => le_trans hbc hab⟩
  rw [processErrorBreakdown_eq]
  exact List.sorted_insertionSort _ _

theorem mem_breakdown_iff {κ : Type} [DecidableEq κ] {guard : κ → Bool}
    {raw : List (κ × ℚ)} {totalErrors : ℚ} {x : BreakdownEntry κ} :
    x ∈ processErrorBreakdown guard raw totalErrors ↔
      ∃ p ∈ mergeTallies guard raw, tallyEntry totalErrors p = x := by
  rw [(breakdown_perm guard raw totalErrors).mem_iff, List.mem_map]

theorem breakdown_count_pct {κ : Type} [DecidableEq κ] (guard : κ → Bool)
    (raw : List (κ × ℚ)) (totalErrors : ℚ) :
    ∀ x ∈ processErrorBreakdown guard raw totalErrors,
      x.count = guardedKeySum guard x.key raw ∧
      x.percentage =
        (if 0 < totalErrors then round2 (x.count / totalErrors * 100) else 0) := by
  intro x hx
  obtain ⟨p, hp, hxe⟩ := mem_breakdown_iff.mp hx
  have hkey : x.key = p.1 := by rw [← hxe]; rfl
  have hcnt : x.count = p.2 := by rw [← hxe]; rfl
  constructor
  · have h1 : keyCountSum p.1 (mergeTallies guard raw) = p.2 :=
      keyCountSum_eq_of_mem_nodup (mergeTallies_nodup_keys guard raw) hp
    rw [hcnt, hkey, ← h1, mergeTallies_keyCountSum]
  · have hpct : x.percentage =
        if 0 < totalErrors then (jsRound (p.2 / totalErrors * 10000) : ℚ) / 100
        else 0 := by rw [← hxe]; rfl
    rw [hpct, hcnt]
    by_cases hE : 0 < totalErrors
    · rw [if_pos hE, if_pos hE]
      unfold round2
      have harg : p.2 / totalErrors * 100 * 100 = p.2 / totalErrors * 10000 := by ring
      rw [harg]
    · rw [if_neg hE, if_neg hE]

theorem breakdown_keys_perm {κ : Type} [DecidableEq κ] (guard : κ → Bool)
    (raw : List (κ × ℚ)) (totalErrors : ℚ) :
    List.Perm ((processErrorBreakdown guard raw totalErrors).map (fun x => x.key))
      ((mergeTallies guard raw).map Prod.fst) := by
  have h := (breakdown_perm guard raw totalErrors).map (fun x => x.key)
  rw [List.map_map] at h
  exact h

theorem breakdown_keys_nodup {κ : Type} [DecidableEq κ] (guard : κ → Bool)
    (raw : List (κ × ℚ)) (totalErrors : ℚ) :
    ((processErrorBreakdown guard raw totalErrors).map (fun x => x.key)).Nodup :=
  ((breakdown_keys_perm guard raw totalErrors).nodup_iff).mpr
    (mergeTallies_nodup_keys guard raw)

theorem breakdown_mem_keys {κ : Type} [DecidableEq κ] (guard : κ → Bool)
    (raw : List (κ × ℚ)) (totalErrors : ℚ) (k : κ) :
    k ∈ (processErrorBreakdown guard raw totalErrors).map (fun x => x.key) ↔
      guard k = true ∧ ∃ c, (k, c) ∈ raw := by
  rw [(breakdown_keys_perm guard raw totalErrors).mem_iff,
    mergeTallies_mem_keys]

theorem breakdown_counts_sum {κ : Type} [DecidableEq κ] (guard : κ → Bool)
    (raw : List (κ × ℚ)) (totalErrors : ℚ) :
    ((processErrorBreakdown guard raw totalErrors).map (fun x => x.count)).sum =
      ((raw.filter (fun p => guard p.1)).map (fun p => p.2)).sum := by
  have h := ((breakdown_perm guard raw totalErrors).map (fun x => x.count)).sum_eq
  rw [List.map_map] at h
  rw [h, ← mergeTallies_countsSum guard raw]
  rfl

theorem abs_sum_sub_sum_le {α : Type} (l : List α) (f g : α → ℚ) (b : ℚ)
    (h : ∀ x ∈ l, |f x - g x| ≤ b) :
    |(l.map f).sum - (l.map g).sum| ≤ l.length * b := by
  induction l with
  | nil => simp
  | cons a t ih =>
    have ha := h a (List.mem_cons_self a t)
    have ht := ih (fun x hx => h x (List.mem_cons_of_mem a hx))
    simp only [List.map_cons, List.sum_cons, List.length_cons]
    have htri : |f a + (t.map f).sum - (g a + (t.map g).sum)| ≤
        |f a - g a| + |(t.map f).sum - (t.map g).sum| := by
      have := abs_add (f a - g a) ((t.map f).sum - (t.map g).sum)
      calc |f a + (t.map f).sum - (g a + (t.map g).sum)|
          = |(f a - g a) + ((t.map f).sum - (t.map g).sum)| := by ring_nf
        _ ≤ |f a - g a| + |(t.map f).sum - (t.map g).sum| := this
    push_cast
    linarith

theorem breakdown_pct_sum {κ : Type} [DecidableEq κ] (guard : κ → Bool)
    (raw : List (κ × ℚ)) (totalErrors : ℚ) (hE : 0 < totalErrors)
    (hsum : ((raw.filter (fun p => guard p.1)).map (fun p => p.2)).sum = totalErrors) :
    |((processErrorBreakdown guard raw totalErrors).map (fun x => x.percentage)).sum - 100| ≤
      ((processErrorBreakdown guard raw totalErrors).length : ℚ) / 200 := by
  have hptwise : ∀ x ∈ processErrorBreakdown guard raw totalErrors,
      |x.percentage - x.count / totalErrors * 100| ≤ 1/200 := by
    intro x hx
    obtain ⟨_, hp⟩ := breakdown_count_pct guard raw totalErrors x hx
    rw [hp, if_pos hE]
    exact abs_round2_sub_le (x.count / totalErrors * 100)
  have h1 := abs_sum_sub_sum_le (processErrorBreakdown guard raw totalErrors)
    (fun x => x.percentage) (fun x => x.count / totalErrors * 100) (1/200) hptwise
  have h2 : ((processErrorBreakdown guard raw totalErrors).map
      (fun x => x.count / totalErrors * 100)).sum = 100 := by
    have he : ((processErrorBreakdown guard raw totalErrors).map
        (fun x => x.count / totalErrors * 100)) =
        (processErrorBreakdown guard raw totalErrors).map
          (fun x => x.count * (100 / totalErrors)) := by
      apply List.map_congr_left
      intro x _
      ring
    rw [he, List.sum_map_mul_right, breakdown_counts_sum, hsum]
    field_simp
  rw [h2] at h1
  calc |((processErrorBreakdown guard raw totalErrors).map (fun x => x.percentage)).sum - 100|
      ≤ (processErrorBreakdown guard raw totalErrors).length * (1/200) := h1
    _ = ((processErrorBreakdown guard raw totalErrors).length : ℚ) / 200 := by ring

/-! ### Bridges from raw tallies back to error events -/

theorem isError_of_mem_errorEventsOf {now : Int} {evs : List ServiceMetric}
    {q : AggregationQuery} {nm : String} {m : ServiceMetric}
    (hm : m ∈ errorEventsOf now evs q nm) : 400 ≤ m.statusCode := by
  unfold errorEventsOf at hm
  have h := (List.mem_filter.mp hm).2
  simp only [Bool.and_eq_true] at h
  have h2 := h.2
  unfold isError at h2
  exact of_decide_eq_true h2

theorem processErrorsByStatusCode_eq (errors : List (Int × ℚ)) (totalErrors : ℚ) :
    processErrorsByStatusCode errors totalErrors =
      processErrorBreakdown (fun k => decide (k ≠ 0)) errors totalErrors := rfl

theorem processErrorsBySeverity_eq (errors : List (Severity × ℚ)) (totalErrors : ℚ) :
    processErrorsBySeverity errors totalErrors =
      processErrorBreakdown (fun _ => true) errors totalErrors := rfl

theorem status_keySum (now : Int) (evs : List ServiceMetric) (q : AggregationQuery)
    (nm : String) (k : Int) :
    guardedKeySum (fun j => decide (j ≠ 0)) k
        ((errorEventsOf now evs q nm).map (fun m => (m.statusCode, m.requestCount))) =
      (((errorEventsOf now evs q nm).filter
        (fun m => decide (m.statusCode = k))).map (fun m => m.requestCount)).sum := by
  unfold guardedKeySum
  rw [List.filter_map]
  have hcongr : (errorEventsOf now evs q nm).filter
      ((fun p : Int × ℚ => decide (p.1 ≠ 0) && decide (p.1 = k)) ∘
        (fun m => (m.statusCode, m.requestCount))) =
      (errorEventsOf now evs q nm).filter (fun m => decide (m.statusCode = k)) := by
    apply List.filter_congr
    intro m hm
    have h400 := isError_of_mem_errorEventsOf hm
    have hne : m.statusCode ≠ 0 := by omega
    simp [hne]
  rw [hcongr, List.map_map]
  rfl

theorem status_guard_total (now : Int) (evs : List ServiceMetric)
    (q : AggregationQuery) (nm : String) :
    ((((errorEventsOf now evs q nm).map
        (fun m => (m.statusCode, m.requestCount))).filter
        (fun p => decide (p.1 ≠ 0))).map (fun p => p.2)).sum =
      ((errorEventsOf now evs q nm).map (fun m => m.requestCount)).sum := by
  rw [List.filter_map]
  have hcongr : (errorEventsOf now evs q nm).filter
      ((fun p : Int × ℚ => decide (p.1 ≠ 0)) ∘ (fun m => (m.statusCode, m.requestCount))) =
      errorEventsOf now evs q nm := by
    apply List.filter_eq_self.mpr
    intro m hm
    have h400 := isError_of_mem_errorEventsOf hm
    have hne : m.statusCode ≠ 0 := by omega
    simp [hne]
  rw [hcongr, List.map_map]
  rfl

theorem status_keys_exists (now : Int) (evs : List ServiceMetric)
    (q : AggregationQuery) (nm : String) (k : Int) :
    (decide (k ≠ 0) = true ∧ ∃ c, (k, c) ∈ (errorEventsOf now evs q nm).map
        (fun m => (m.statusCode, m.requestCount))) ↔
      ∃ m ∈ errorEventsOf now evs q nm, m.statusCode = k := by
  constructor
  · rintro ⟨_, c, hc⟩
    obtain ⟨m, hm, he⟩ := List.mem_map.mp hc
    exact ⟨m, hm, congrArg Prod.fst he⟩
  · rintro ⟨m, hm, he⟩
    have h400 := isError_of_mem_errorEventsOf hm
    refine ⟨by simp; omega, m.requestCount, ?_⟩
    rw [← he]
    exact List.mem_map_of_mem _ hm

theorem severity_keySum (now : Int) (evs : List ServiceMetric) (q : AggregationQuery)
    (nm : String) (sv : Severity) :
    guardedKeySum (fun _ => true) sv
        ((errorEventsOf now evs q nm).map (fun m => (m.severity, m.requestCount))) =
      (((errorEventsOf now evs q nm).filter
        (fun m => decide (m.severity = sv))).map (fun m => m.requestCount)).sum := by
  unfold guardedKeySum
  rw [List.filter_map]
  have hcongr : (errorEventsOf now evs q nm).filter
      ((fun p : Severity × ℚ => (true && decide (p.1 = sv) : Bool)) ∘
        (fun m => (m.severity, m.requestCount))) =
      (errorEventsOf now evs q nm).filter (fun m => decide (m.severity = sv)) := by
    apply List.filter_congr
    intro m _
    simp
  rw [hcongr, List.map_map]
  rfl

theorem severity_guard_total (now : Int) (evs : List ServiceMetric)
    (q : AggregationQuery) (nm : String) :
    ((((errorEventsOf now evs q nm).map
        (fun m => (m.severity, m.requestCount))).filter
        (fun _ => (true : Bool))).map (fun p => p.2)).sum =
      ((errorEventsOf now evs q nm).map (fun m => m.requestCount)).sum := by
  rw [List.filter_map]
  have hcongr : (errorEventsOf now evs q nm).filter
      ((fun _ : Severity × ℚ => (true : Bool)) ∘ (fun m => (m.severity, m.requestCount))) =
      errorEventsOf now evs q nm := by
    apply List.filter_eq_self.mpr
    intro m _
    rfl
  rw [hcongr, List.map_map]
  rfl

theorem severity_keys_exists (now : Int) (evs : List ServiceMetric)
    (q : AggregationQuery) (nm : String) (sv : Severity) :
    ((true : Bool) = true ∧ ∃ c, (sv, c) ∈ (errorEventsOf now evs q nm).map
        (fun m => (m.severity, m.requestCount))) ↔
      ∃ m ∈ errorEventsOf now evs q nm, m.severity = sv := by
  constructor
  · rintro ⟨_, c, hc⟩
    obtain ⟨m, hm, he⟩ := List.mem_map.mp hc
    exact ⟨m, hm, congrArg Prod.fst he⟩
  · rintro ⟨m, hm, he⟩
    refine ⟨rfl, m.requestCount, ?_⟩
    rw [← he]
    exact List.mem_map_of_mem _ hm

/-- C5: for every output service, each error breakdown array (by status
code and by severity) has exactly one entry per distinct key occurring
among that service's error events, with `count` the summed `requestCount`
of that key's error events; each `percentage` is `100 * count / errorCount`
rounded to 2 decimals (`0` when `errorCount` is not positive); entries are
sorted by descending count; and when `errorCount > 0` the percentages sum
to 100 within rounding tolerance (at most half a rounding unit per entry). -/
theorem claim5_breakdowns (now : Int) (evs : List ServiceMetric)
    (q : AggregationQuery) (g : ServiceAggregation)
    (hg : g ∈ aggregateServiceMetrics now evs q) :
    ((∀ e ∈ g.error.errorsByType,
        e.count = (((errorEventsOf now evs q g.servicename).filter
            (fun m => decide (m.statusCode = e.key))).map (fun m => m.requestCount)).sum ∧
        e.percentage = if 0 < g.error.errorCount then
            round2 (e.count / g.error.errorCount * 100) else 0) ∧
      (g.error.errorsByType.map (fun e => e.key)).Nodup ∧
      (∀ k : Int, k ∈ g.error.errorsByType.map (fun e => e.key) ↔
        ∃ m ∈ errorEventsOf now evs q g.servicename, m.statusCode = k) ∧
      g.error.errorsByType.Pairwise (fun a b => b.count ≤ a.count) ∧
      (0 < g.error.errorCount →
        |(g.error.errorsByType.map (fun e => e.percentage)).sum - 100| ≤
          (g.error.errorsByType.length : ℚ) / 200)) ∧
    ((∀ e ∈ g.error.errorsBySeverity,
        e.count = (((errorEventsOf now evs q g.servicename).filter
            (fun m => decide (m.severity = e.key))).map (fun m => m.requestCount)).sum ∧
        e.percentage = if 0 < g.error.errorCount then
            round2 (e.count / g.error.errorCount * 100) else 0) ∧
      (g.error.errorsBySeverity.map (fun e => e.key)).Nodup ∧
      (∀ sv : Severity, sv ∈ g.error.errorsBySeverity.map (fun e => e.key) ↔
        ∃ m ∈ errorEventsOf now evs q g.servicename, m.severity = sv) ∧
      g.error.errorsBySeverity.Pairwise (fun a b => b.count ≤ a.count) ∧
      (0 < g.error.errorCount →
        |(g.error.errorsBySeverity.map (fun e => e.percentage)).sum - 100| ≤
          (g.error.errorsBySeverity.length : ℚ) / 200)) := by
  obtain ⟨hne, hrate, herr, hdur, hsat⟩ := mem_aggregate hg
  have hcnt : g.error.errorCount =
      ((errorEventsOf now evs q g.servicename).map (fun m => m.requestCount)).sum := by
    rw [herr]
    show (((groupEventsOf now evs q g.servicename).filter isError).map
      (fun m => m.requestCount)).sum = _
    rw [groupEventsOf_filter_isError]
  have hbytype : g.error.errorsByType =
      processErrorBreakdown (fun k : Int => decide (k ≠ 0))
        ((errorEventsOf now evs q g.servicename).map
          (fun m => (m.statusCode, m.requestCount)))
        g.error.errorCount := by
    conv_lhs => rw [herr]
    show processErrorsByStatusCode
        (((groupEventsOf now evs q g.servicename).filter isError).map
          (fun m => (m.statusCode, m.requestCount)))
        (((groupEventsOf now evs q g.servicename).filter isError).map
          (fun m => m.requestCount)).sum = _
    rw [groupEventsOf_filter_isError, processErrorsByStatusCode_eq, ← hcnt]
  have hbysev : g.error.errorsBySeverity =
      processErrorBreakdown (fun _ : Severity => (true : Bool))
        ((errorEventsOf now evs q g.servicename).map
          (fun m => (m.severity, m.requestCount)))
        g.error.errorCount := by
    conv_lhs => rw [herr]
    show processErrorsBySeverity
        (((groupEventsOf now evs q g.servicename).filter isError).map
          (fun m => (m.severity, m.requestCount)))
        (((groupEventsOf now evs q g.servicename).filter isError).map
          (fun m => m.requestCount)).sum = _
    rw [groupEventsOf_filter_isError, processErrorsBySeverity_eq, ← hcnt]
  refine ⟨⟨?_, ?_, ?_, ?_, ?_⟩, ?_, ?_, ?_, ?_, ?_⟩
  · intro e he
    rw [hbytype] at he
    obtain ⟨hc, hp⟩ := breakdown_count_pct _ _ _ e he
    exact ⟨by rw [hc, status_keySum], hp⟩
  · rw [hbytype]
    exact breakdown_keys_nodup _ _ _
  · intro k
    rw [hbytype, breakdown_mem_keys]
    exact status_keys_exists now evs q g.servicename k
  · rw [hbytype]
    exact breakdown_pairwise _ _ _
  · intro hpos
    rw [hbytype]
    exact breakdown_pct_sum _ _ _ hpos
      ((status_guard_total now evs q g.servicename).trans hcnt.symm)
  · intro e he
    rw [hbysev] at he
    obtain ⟨hc, hp⟩ := breakdown_count_pct _ _ _ e he
    exact ⟨by rw [hc, severity_keySum], hp⟩
  · rw [hbysev]
    exact breakdown_keys_nodup _ _ _
  · intro sv
    rw [hbysev, breakdown_mem_keys]
    exact severity_keys_exists now evs q g.servicename sv
  · rw [hbysev]
    exact breakdown_pairwise _ _ _
  · intro hpos
    rw [hbysev]
    exact breakdown_pct_sum _ _ _ hpos
      ((severity_guard_total now evs q g.servicename).trans hcnt.symm)

/-! ### Concrete inputs used to instantiate the claims -/

/-- Service A, ok, 10 ms. -/
def evA1 : ServiceMetric :=
  { servicename := "A", severity := Severity.low, timestamp := 0, responseTime := 10,
    statusCode := 200, requestCount := 1, cpuUsage := none, memoryUsage := none }

/-- Service A, error 500, 20 ms. -/
def evA2 : ServiceMetric :=
  { servicename := "A", severity := Severity.high, timestamp := 0, responseTime := 20,
    statusCode := 500, requestCount := 1, cpuUsage := some 80, memoryUsage := some 40 }

/-- Service B, error 404, 5 ms, a coalesced batch of 2 requests. -/
def evB1 : ServiceMetric :=
  { servicename := "B", severity := Severity.medium, timestamp := 0, responseTime := 5,
    statusCode := 404, requestCount := 2, cpuUsage := some 30, memoryUsage := some 60 }

/-- Service A, ok, 30 ms. -/
def evA3 : ServiceMetric :=
  { servicename := "A", severity := Severity.low, timestamp := 0, responseTime := 30,
    statusCode := 200, requestCount := 1, cpuUsage := none, memoryUsage := none }

def sampleEvents : List ServiceMetric := [evA1, evA2, evB1, evA3]

def sampleQuery : AggregationQuery := {}

def sampleOut : List ServiceAggregation :=
  aggregateServiceMetrics 0 sampleEvents sampleQuery

def sampleTop : ServiceAggregation := sampleOut.getD 0 defaultAggregation

/-- A query whose `limit` is `0` — falsy in JS. -/
def zeroLimitQuery : AggregationQuery := { limit := some 0 }

/-- A query whose `limit` is `1`. -/
def oneLimitQuery : AggregationQuery := { limit := some 1 }

/-- A custom range whose end precedes its start: resolved duration is
`0 - 1000` ms, i.e. `-1` s. -/
def negQuery : AggregationQuery :=
  { timeRange := some TimeRange.custom, startDate := some 1000, endDate := some 0 }

/-- A named 5-minute range. -/
def fiveMinQuery : AggregationQuery := { timeRange := some TimeRange.fiveMinutes }

/-- One event whose response time `1/250` ms (= 0.004) rounds to `0.00`. -/
def evTiny : ServiceMetric :=
  { servicename := "t", severity := Severity.low, timestamp := 0, responseTime := 1/250,
    statusCode := 200, requestCount := 1, cpuUsage := none, memoryUsage := none }

def tinyOut : ServiceAggregation :=
  (aggregateServiceMetrics 0 [evTiny] {}).getD 0 defaultAggregation

theorem strNeAB : ("A" : String) ≠ "B" := by decide

theorem strNeBA : ("B" : String) ≠ "A" := by decide

/-- C6, counterexample: with `limit = 0` the claim's "at most k entries"
fails — the ranked list is returned whole because `0` is falsy. -/
theorem claim6_counterexample :
    zeroLimitQuery.limit = some 0 ∧
    (aggregateServiceMetrics 0 sampleEvents zeroLimitQuery).length = 2 ∧
    ¬((aggregateServiceMetrics 0 sampleEvents zeroLimitQuery).length ≤ 0) := by
  refine ⟨rfl, ?_, ?_⟩ <;>
    norm_num [sampleEvents, evA1, evA2, evB1, evA3, zeroLimitQuery,
      beq_iff_eq, strNeAB, strNeBA,
      aggregateServiceMetrics, matchesFilter, buildDateFilter, firstOccurrences,
      mkGroup, isError, rankServices, rankedList, jsSliceTo, mkAggregation, rateOf,
      errorOf, durationOf, saturationOf, secsOf, minsOf, getTimeRangeInMs, jsOrOne,
      round2, jsRound, listAvg, sortAsc, qMin, qMax, p95Index, p99Index,
      processErrorsByStatusCode, processErrorsBySeverity, processErrorBreakdown,
      mergeTallies, mapInsertAdd, rankKey, setRank, calculateResourceUtilization,
      List.insertionSort, List.orderedInsert, Int.toNat]

/-- C7, counterexample: a custom range with `endDate < startDate` resolves
to `-1` s, which is truthy, so `timeRangeSeconds || 1` keeps the negative
divisor instead of coercing it to 1. -/
theorem claim7_counterexample :
    secsOf negQuery = -1 ∧ jsOrOne (secsOf negQuery) = -1 ∧
    jsOrOne (secsOf negQuery) < 0 := by
  norm_num [secsOf, getTimeRangeInMs, negQuery, jsOrOne]

/-- C8, counterexample: for a single event with response time `1/250` ms
the reported (unrounded) minimum exceeds the rounded median, violating
`min <= median` as claimed. -/
theorem claim8_counterexample :
    tinyOut.duration.minResponseTime = 1/250 ∧
    tinyOut.duration.medianResponseTime = 0 ∧
    ¬(tinyOut.duration.minResponseTime ≤ tinyOut.duration.medianResponseTime) := by
  refine ⟨?_, ?_, ?_⟩ <;>
    norm_num [tinyOut, evTiny, defaultAggregation,
      aggregateServiceMetrics, matchesFilter, buildDateFilter, firstOccurrences,
      mkGroup, isError, rankServices, rankedList, jsSliceTo, mkAggregation, rateOf,
      errorOf, durationOf, saturationOf, secsOf, minsOf, getTimeRangeInMs, jsOrOne,
      round2, jsRound, listAvg, sortAsc, qMin, qMax, p95Index, p99Index,
      processErrorsByStatusCode, processErrorsBySeverity, processErrorBreakdown,
      mergeTallies, mapInsertAdd, rankKey, setRank, calculateResourceUtilization,
      List.insertionSort, List.orderedInsert, Int.toNat]

theorem sampleOut_length : sampleOut.length = 2 := by
  norm_num [sampleOut, sampleEvents, evA1, evA2, evB1, evA3, sampleQuery,
    beq_iff_eq, strNeAB, strNeBA,
    aggregateServiceMetrics, matchesFilter, buildDateFilter, firstOccurrences,
    mkGroup, isError, rankServices, rankedList, jsSliceTo, mkAggregation, rateOf,
    errorOf, durationOf, saturationOf, secsOf, minsOf, getTimeRangeInMs, jsOrOne,
    round2, jsRound, listAvg, sortAsc, qMin, qMax, p95Index, p99Index,
    processErrorsByStatusCode, processErrorsBySeverity, processErrorBreakdown,
    mergeTallies, mapInsertAdd, rankKey, setRank, calculateResourceUtilization,
    List.insertionSort, List.orderedInsert, Int.toNat]

theorem sampleTop_mem : sampleTop ∈ aggregateServiceMetrics 0 sampleEvents sampleQuery :=
  getD_mem_of_lt sampleOut 0 defaultAggregation (by rw [sampleOut_length]; norm_num)

/-- C1, witness at the sample input. -/
theorem claim1_witness :
    sampleTop.rate.totalRequests
        = ((groupEventsOf 0 sampleEvents sampleQuery sampleTop.servicename).map
            (fun m => m.requestCount)).sum ∧
    sampleTop.error.totalRequests
        = ((groupEventsOf 0 sampleEvents sampleQuery sampleTop.servicename).map
            (fun m => m.requestCount)).sum ∧
    sampleTop.error.errorCount
        = ((errorEventsOf 0 sampleEvents sampleQuery sampleTop.servicename).map
            (fun m => m.requestCount)).sum :=
  claim1_group_totals 0 sampleEvents sampleQuery sampleTop sampleTop_mem

/-- C2, witness at the sample input. -/
theorem claim2_witness :
    sampleTop.duration.medianResponseTime
        = round2 ((sortAsc ((groupEventsOf 0 sampleEvents sampleQuery sampleTop.servicename).map
            (fun m => m.responseTime))).getD
            (((groupEventsOf 0 sampleEvents sampleQuery sampleTop.servicename).map
              (fun m => m.responseTime)).length / 2) 0) ∧
    sampleTop.duration.p95ResponseTime
        = round2 ((sortAsc ((groupEventsOf 0 sampleEvents sampleQuery sampleTop.servicename).map
            (fun m => m.responseTime))).getD
            (p95Index ((groupEventsOf 0 sampleEvents sampleQuery sampleTop.servicename).map
              (fun m => m.responseTime)).length) 0) ∧
    sampleTop.duration.p99ResponseTime
        = round2 ((sortAsc ((groupEventsOf 0 sampleEvents sampleQuery sampleTop.servicename).map
            (fun m => m.responseTime))).getD
            (p99Index ((groupEventsOf 0 sampleEvents sampleQuery sampleTop.servicename).map
              (fun m => m.responseTime)).length) 0) :=
  claim2_percentiles 0 sampleEvents sampleQuery sampleTop sampleTop_mem

/-- C3, witness at the sample input: the two hypotheses of the claim are
discharged at indices 0 and 1 of a two-service output. -/
theorem claim3_witness :
    (0 + 1 < sampleOut.length ∧
      rankKey (sampleQuery.rankBy.getD RankBy.error) (sampleOut.getD (0+1) defaultAggregation) ≤
        rankKey (sampleQuery.rankBy.getD RankBy.error) (sampleOut.getD 0 defaultAggregation)) ∧
    (0 < sampleOut.length ∧
      (sampleOut.getD 0 defaultAggregation).rank = ((0 : Nat) : Int) + 1) := by
  have hlen : 0 + 1 < sampleOut.length := by rw [sampleOut_length]; norm_num
  have hlen0 : 0 < sampleOut.length := by rw [sampleOut_length]; norm_num
  exact ⟨⟨hlen, (claim3_ranking 0 sampleEvents sampleQuery).1 0 hlen⟩,
    ⟨hlen0, (claim3_ranking 0 sampleEvents sampleQuery).2 0 hlen0⟩⟩

/-- C4, witness at the sample input. -/
theorem claim4_witness :
    0 < sampleTop.error.totalRequests ∧
    sampleTop.error.errorRate =
      round2 (100 * sampleTop.error.errorCount / sampleTop.error.totalRequests) ∧
    0 ≤ sampleTop.error.errorRate ∧ sampleTop.error.errorRate ≤ 100 :=
  claim4_errorRate 0 sampleEvents sampleQuery sampleTop (by decide) sampleTop_mem

/-- C5, witness at the sample input. -/
theorem claim5_witness :
    ((∀ e ∈ sampleTop.error.errorsByType,
        e.count = (((errorEventsOf 0 sampleEvents sampleQuery sampleTop.servicename).filter
            (fun m => decide (m.statusCode = e.key))).map (fun m => m.requestCount)).sum ∧
        e.percentage = if 0 < sampleTop.error.errorCount then
            round2 (e.count / sampleTop.error.errorCount * 100) else 0) ∧
      (sampleTop.error.errorsByType.map (fun e => e.key)).Nodup ∧
      (∀ k : Int, k ∈ sampleTop.error.errorsByType.map (fun e => e.key) ↔
        ∃ m ∈ errorEventsOf 0 sampleEvents sampleQuery sampleTop.servicename,
          m.statusCode = k) ∧
      sampleTop.error.errorsByType.Pairwise (fun a b => b.count ≤ a.count) ∧
      (0 < sampleTop.error.errorCount →
        |(sampleTop.error.errorsByType.map (fun e => e.percentage)).sum - 100| ≤
          (sampleTop.error.errorsByType.length : ℚ) / 200)) ∧
    ((∀ e ∈ sampleTop.error.errorsBySeverity,
        e.count = (((errorEventsOf 0 sampleEvents sampleQuery sampleTop.servicename).filter
            (fun m => decide (m.severity = e.key))).map (fun m => m.requestCount)).sum ∧
        e.percentage = if 0 < sampleTop.error.errorCount then
            round2 (e.count / sampleTop.error.errorCount * 100) else 0) ∧
      (sampleTop.error.errorsBySeverity.map (fun e => e.key)).Nodup ∧
      (∀ sv : Severity, sv ∈ sampleTop.error.errorsBySeverity.map (fun e => e.key) ↔
        ∃ m ∈ errorEventsOf 0 sampleEvents sampleQuery sampleTop.servicename,
          m.severity = sv) ∧
      sampleTop.error.errorsBySeverity.Pairwise (fun a b => b.count ≤ a.count) ∧
      (0 < sampleTop.error.errorCount →
        |(sampleTop.error.errorsBySeverity.map (fun e => e.percentage)).sum - 100| ≤
          (sampleTop.error.errorsBySeverity.length : ℚ) / 200)) :=
  claim5_breakdowns 0 sampleEvents sampleQuery sampleTop sampleTop_mem

/-- C6 (amended), witness: `limit = 1` truncates the two-service sample
output to the top entry of the unlimited ranking. -/
theorem claim6_witness :
    oneLimitQuery.limit = some 1 ∧ (0:Int) < 1 ∧
    ((aggregateServiceMetrics 0 sampleEvents oneLimitQuery).length ≤ (1:Int).toNat ∧
      aggregateServiceMetrics 0 sampleEvents oneLimitQuery =
        (aggregateServiceMetrics 0 sampleEvents
          { oneLimitQuery with limit := none }).take (1:Int).toNat) :=
  ⟨rfl, by decide,
    claim6_limit_truncates 0 sampleEvents oneLimitQuery 1 rfl (by decide)⟩

/-- C7 (amended), witness: the named-range and negative-duration
implications discharged at concrete queries. -/
theorem claim7_witness :
    secsOf fiveMinQuery = 300 ∧
    jsOrOne (secsOf negQuery) ≠ 0 ∧
    (secsOf negQuery < 0 ∧ aggregateServiceMetrics 0 sampleEvents negQuery = []) := by
  have hneg : secsOf negQuery < 0 := by
    norm_num [secsOf, getTimeRangeInMs, negQuery]
  exact ⟨(claim7_window_divisor 0 sampleEvents fiveMinQuery).2.1 rfl,
    (claim7_window_divisor 0 sampleEvents negQuery).1,
    hneg,
    (claim7_window_divisor 0 sampleEvents negQuery).2.2.2.2.2.2.2.2.2 hneg⟩

/-- C8 (amended), witness at the sample input. -/
theorem claim8_witness :
    sampleTop.duration.minResponseTime - 1/200 ≤ sampleTop.duration.medianResponseTime ∧
    sampleTop.duration.medianResponseTime ≤ sampleTop.duration.maxResponseTime + 1/200 ∧
    sampleTop.duration.minResponseTime - 1/200 ≤ sampleTop.duration.averageResponseTime ∧
    sampleTop.duration.averageResponseTime ≤ sampleTop.duration.maxResponseTime + 1/200 :=
  claim8_duration_bounds 0 sampleEvents sampleQuery sampleTop sampleTop_mem

/-- C10, witness at `n = 3`: `floor(3 * 0.95) = 2 = 3 - 1`. -/
theorem claim10_witness :
    1 ≤ 3 ∧ (p95Index 3 ≤ 3 - 1 ∧ p99Index 3 ≤ 3 - 1) :=
  ⟨by norm_num, claim10_percentile_bounds 3 (by norm_num)⟩
